import Mathlib

/-!
Verification of the droid-acp protocol bridge (editor-facing ACP server
bridging to a line-framed JSON-RPC agent subprocess).

The definitions below are a shallow embedding of the bridge's core
components, translated from the TypeScript source:

* `computeAutoDecision`   — src/acp/permissions/auto-decision.ts
* the message reconciler  — droid-adapter.ts (`handleLine`, working-state /
  create_message cases and the 250ms pending-idle grace timer)
* the line-processing chain — droid-adapter.ts (`queueLine`)
* the per-session tool-call bookkeeping — permissions/handle.ts
  (`handlePermission`), permissions/decide.ts (`decidePermission`),
  notifications/handle-notification.ts (`handleNotification`),
  session/restart.ts (`finalizeActiveToolCalls`)
* the exit-spec plan-choice sub-dialog — permissions/exit-spec.ts
  (`maybeHandleExitSpecModePlanChoice`) and permissions/spec.ts
  (`extractPlanChoices`)
* the session lifecycle — agent/prompt-cancel.ts (`prompt`, `cancel`),
  session/restart.ts (`restartDroidSession`), session/attach-session.ts
  (`attachSession`)

Stateful TypeScript is modelled by explicit state passing; `await`-style
suspension does not reorder anything inside a single handler because the
bridge runs on a single cooperative thread, so each exported operation is
modelled as one atomic state transformer.  Emitted client updates and
subprocess sends are collected in explicit effect lists.
-/

namespace DroidAcp

/-- ACP autonomy mode ids (`AcpModeId` in types.ts): one of
"off" | "low" | "medium" | "high" | "spec". -/
inductive AcpModeId where
  | off
  | low
  | medium
  | high
  | spec
deriving DecidableEq, Repr

/-- Tool risk classification ("low" | "medium" | "high"). -/
inductive RiskLevel where
  | low
  | medium
  | high
deriving DecidableEq, Repr

/-- Tool-call lifecycle status ("pending" | "in_progress" | "completed" | "failed"),
the value type of `Session.toolCallStatus`. -/
inductive ToolStatus where
  | pending
  | inProgress
  | completed
  | failed
deriving DecidableEq, Repr

/-- `computeAutoDecision` from src/acp/permissions/auto-decision.ts,
translated clause by clause.  `none` models the TypeScript `null`
("escalate to the human"); `some v` models returning the string `v`
("proceed_always" / "proceed_once" auto-approve, "cancel" auto-reject).
The logger calls are pure logging and are dropped. -/
def computeAutoDecision (toolName : String) (sessionMode : AcpModeId)
    (riskLevel : RiskLevel) : Option String :=
  if toolName = "ExitSpecMode" then
    -- Exiting spec triggers execution; always ask the user which mode to proceed with.
    none
  else if sessionMode = AcpModeId.high then
    some "proceed_always"
  else if sessionMode = AcpModeId.medium then
    if riskLevel = RiskLevel.high then none else some "proceed_once"
  else if sessionMode = AcpModeId.low then
    if riskLevel = RiskLevel.low then some "proceed_once" else none
  else if sessionMode = AcpModeId.spec then
    -- Spec mode: allow low-risk operations (read/search) without prompting.
    if riskLevel = RiskLevel.low then some "proceed_once" else some "cancel"
  else
    -- off mode: ask the user (no auto-approval)
    none

/-- Classification of an automatic decision: approve, reject, or escalate
to the human. -/
inductive DecisionClass where
  | autoApprove
  | autoReject
  | escalate
deriving DecidableEq, Repr

/-- Classify the value returned by `computeAutoDecision`: `null` escalates,
"cancel" auto-rejects, any other option auto-approves. -/
def classifyDecision : Option String → DecisionClass
  | none => DecisionClass.escalate
  | some v => if v = "cancel" then DecisionClass.autoReject else DecisionClass.autoApprove

/-- Modelled from the spec: the §4.4 permission policy table, written
directly from the spec's words (spec row: approve low / reject medium,high;
off row: ask everywhere; low row: approve only low; medium row: approve
low,medium; high row: approve everything). -/
def specPolicyTable : AcpModeId → RiskLevel → DecisionClass
  | AcpModeId.spec, RiskLevel.low => DecisionClass.autoApprove
  | AcpModeId.spec, _ => DecisionClass.autoReject
  | AcpModeId.off, _ => DecisionClass.escalate
  | AcpModeId.low, RiskLevel.low => DecisionClass.autoApprove
  | AcpModeId.low, _ => DecisionClass.escalate
  | AcpModeId.medium, RiskLevel.high => DecisionClass.escalate
  | AcpModeId.medium, _ => DecisionClass.autoApprove
  | AcpModeId.high, _ => DecisionClass.autoApprove

/-! ### Message reconciler (droid-adapter.ts, `handleLine`)

The adapter keeps three pieces of mutable state for the out-of-order idle
race: `isStreamingAssistant`, `pendingIdle`, and the 250ms grace timer
`pendingIdleTimer`.  We model the timer handle by a Boolean `timerArmed`
and represent expiry of the armed timer as an explicit `timerFire` event
(the 250ms bound itself is wall-clock time and is not modelled). -/

/-- Reconciler state: `isStreamingAssistant`, `pendingIdle`, and whether
`pendingIdleTimer` currently holds a live timer. -/
structure ReconState where
  isStreamingAssistant : Bool
  pendingIdle : Bool
  timerArmed : Bool
deriving DecidableEq, Repr

/-- Adapter state right after initialization: not streaming, no pending
idle, no timer armed. -/
def reconInit : ReconState := ⟨false, false, false⟩

/-- A tool_use content block of a `create_message` notification (only the
fields the reconciler forwards). -/
structure ToolUseBlock where
  id : String
  name : String
deriving DecidableEq, Repr

/-- The subprocess events relevant to turn completion, as decoded by
`handleLine`: a `droid_working_state_changed` notification (with its
`newState` string), a `create_message` notification (role plus its text
blocks and tool_use blocks), and expiry of the pending-idle grace timer. -/
inductive ReconEvent where
  | workingState (newState : String)
  | createMessage (role : String) (textParts : List String) (toolUses : List ToolUseBlock)
  | timerFire
deriving DecidableEq, Repr

/-- The internal notifications `emit`ted by the reconciler (only the
variants produced by the modelled cases). -/
inductive ReconOut where
  | workingState (s : String)
  | message (role : String) (text : String)
  | messageToolUse (role : String) (id : String) (name : String)
  | complete
deriving DecidableEq, Repr

/-- One step of `handleLine` (droid_working_state_changed and
create_message cases) plus the grace-timer callback, translated from
droid-adapter.ts lines 162-275 and 188-194.  Returns the new state and
the list of notifications emitted, in emission order. -/
def reconStep (st : ReconState) : ReconEvent → ReconState × List ReconOut
  | ReconEvent.workingState newState =>
    let out0 := [ReconOut.workingState newState]
    if newState = "streaming_assistant_message" then
      -- streaming starts: remember it, clear any pending idle and timer
      (⟨true, false, false⟩, out0)
    else if newState = "idle" then
      if st.isStreamingAssistant then
        -- out-of-order idle: defer completion, (re)arm the grace timer
        (⟨st.isStreamingAssistant, true, true⟩, out0)
      else
        (st, out0 ++ [ReconOut.complete])
    else
      (st, out0)
  | ReconEvent.createMessage role textParts toolUses =>
    let textOuts :=
      if textParts ≠ [] then
        [ReconOut.message role (String.join textParts)]
      else []
    let toolOuts := toolUses.map (fun tu => ReconOut.messageToolUse role tu.id tu.name)
    let outs := textOuts ++ toolOuts
    if role = "assistant" then
      -- if we were waiting for this assistant message, now complete
      if st.pendingIdle then
        (⟨false, false, false⟩, outs ++ [ReconOut.complete])
      else
        (⟨false, st.pendingIdle, false⟩, outs)
    else
      (st, outs)
  | ReconEvent.timerFire =>
    if st.timerArmed then
      if st.pendingIdle then
        (⟨false, false, false⟩, [ReconOut.complete])
      else
        (⟨st.isStreamingAssistant, st.pendingIdle, false⟩, [])
    else
      (st, [])

/-- Run the reconciler over a list of events, concatenating the emitted
notifications. -/
def reconRun (st : ReconState) : List ReconEvent → ReconState × List ReconOut
  | [] => (st, [])
  | e :: rest =>
    let (st', outs) := reconStep st e
    let (st'', outs') := reconRun st' rest
    (st'', outs ++ outs')

/-! ### Line-processing chain (droid-adapter.ts, `queueLine`)

`queueLine` appends each received stdout line to a single promise chain:
`processingChain = processingChain.then(() => handleLine(line))`.  Under
JavaScript promise semantics the continuation for line n+1 starts only
after `handleLine` for line n has fully settled, even across `await`
suspension points inside the handler.  We model each line's handler as a
finite sequence of atomic segments separated by suspension points, and the
chain as a FIFO queue of tasks of which only the FRONT task may execute a
segment (that is exactly what chaining `.then` on the previous handler's
promise enforces).  The environment nondeterministically interleaves line
arrivals with segment executions. -/

/-- A queued line handler: which line it processes, the index of its next
segment, and how many segments it has in total. -/
structure ChainTask where
  line : Nat
  nextSeg : Nat
  total : Nat
deriving DecidableEq, Repr

/-- State of the processing chain: the queued (not yet finished) handlers
in arrival order, the trace of executed segments (line index, segment
index), and the index the next arriving line will get. -/
structure ChainState where
  queue : List ChainTask
  trace : List (Nat × Nat)
  nextLine : Nat
deriving DecidableEq, Repr

/-- Empty chain (`processingChain = Promise.resolve()`). -/
def chainInit : ChainState := ⟨[], [], 0⟩

/-- Environment events: a new line arrives (its handler has `segCount`
atomic segments), or the event loop runs one segment of the front
handler. -/
inductive ChainEvent where
  | arrive (segCount : Nat)
  | exec
deriving DecidableEq, Repr

/-- One chain step.  `arrive` enqueues the new line's handler at the back
(`processingChain.then(...)`); `exec` runs one segment of the front
handler only, removing it once its last segment has run.  A handler with
no segments is not enqueued. -/
def chainStep (st : ChainState) : ChainEvent → ChainState
  | ChainEvent.arrive n =>
    if n = 0 then
      { st with nextLine := st.nextLine + 1 }
    else
      { queue := st.queue ++ [⟨st.nextLine, 0, n⟩],
        trace := st.trace,
        nextLine := st.nextLine + 1 }
  | ChainEvent.exec =>
    match st.queue with
    | [] => st
    | t :: rest =>
      { queue :=
          if t.nextSeg + 1 < t.total then
            { t with nextSeg := t.nextSeg + 1 } :: rest
          else rest,
        trace := st.trace ++ [(t.line, t.nextSeg)],
        nextLine := st.nextLine }

/-- Run the chain over a list of environment events. -/
def chainRun (st : ChainState) : List ChainEvent → ChainState
  | [] => st
  | e :: rest => chainRun (chainStep st e) rest

/-- Strict lexicographic order on (line index, segment index): an earlier
line's segment, or an earlier segment of the same line. -/
def chainLexLt (p q : Nat × Nat) : Prop :=
  p.1 < q.1 ∨ (p.1 = q.1 ∧ p.2 < q.2)

/-- Inductive invariant of the chain: the trace is lexicographically
ordered, queued lines are in strictly increasing arrival order, every
executed segment lexicographically precedes every still-queued segment,
and all line indices are below the next fresh index. -/
def ChainInv (st : ChainState) : Prop :=
  st.trace.Pairwise chainLexLt ∧
  (st.queue.map ChainTask.line).Pairwise (· < ·) ∧
  (∀ p ∈ st.trace, ∀ t ∈ st.queue, chainLexLt p (t.line, t.nextSeg)) ∧
  (∀ p ∈ st.trace, p.1 < st.nextLine) ∧
  (∀ t ∈ st.queue, t.line < st.nextLine)

/-! ### Session state (session-types.ts `Session`)

One editor-visible session.  `toolCallStatus` is the status mapping,
`statusHistory` is a ghost field recording every write to that mapping in
program order (it exists only to state history properties and is appended
to exactly where the source calls `toolCallStatus.set`).  `objId` is a
ghost object-identity tag: every construction of a `Session` object uses a
fresh tag, so two states with different `objId` correspond to different
JavaScript objects.  `droidGen` identifies the attached subprocess adapter
instance the same way.  `promptResolve`/`capture` model presence of the
turn-completion continuation and of the capture record. -/
structure Session where
  id : String
  objId : Nat
  droidGen : Nat
  droidSessionId : String
  droidRunning : Bool
  title : Option String
  pendingHistoryContext : Option String
  model : String
  mode : AcpModeId
  keepAliveOnDroidExit : Bool
  cancelled : Bool
  restartPending : Bool
  promptResolve : Bool
  capture : Bool
  availableModels : List String
  toolCallStatus : String → Option ToolStatus
  statusHistory : List (String × ToolStatus)
  activeToolCallIds : List String
  toolNames : List (String × String)
  specChoice : Option String
  specChoicePromptSignature : Option String
  specPlanDetailsSignature : Option String
  specPlanDetailsToolCallId : Option String

/-- `session.toolCallStatus.set(id, st)`, also appending to the ghost
history. -/
def setStatus (s : Session) (id : String) (st : ToolStatus) : Session :=
  { s with
    toolCallStatus := fun x => if x = id then some st else s.toolCallStatus x,
    statusHistory := s.statusHistory ++ [(id, st)] }

/-- `session.activeToolCallIds.add(id)` (JS Set: no duplicates, insertion
order preserved). -/
def addActive (s : Session) (id : String) : Session :=
  if id ∈ s.activeToolCallIds then s
  else { s with activeToolCallIds := s.activeToolCallIds ++ [id] }

/-- `session.activeToolCallIds.delete(id)`. -/
def removeActive (s : Session) (id : String) : Session :=
  { s with activeToolCallIds := s.activeToolCallIds.filter (fun x => x ≠ id) }

/-- `session.toolNames.set(id, name)`. -/
def setToolName (s : Session) (id name : String) : Session :=
  { s with toolNames := (id, name) :: s.toolNames.filter (fun e => e.1 ≠ id) }

/-- A freshly attached session with no in-flight work (other fields as in
`attachSession`'s object literal). -/
def permInit (mode : AcpModeId) : Session :=
  { id := "sess", objId := 0, droidGen := 0, droidSessionId := "droid-sess",
    droidRunning := true, title := none, pendingHistoryContext := none,
    model := "m1", mode := mode, keepAliveOnDroidExit := false,
    cancelled := false, restartPending := false, promptResolve := false,
    capture := false, availableModels := ["m1"],
    toolCallStatus := fun _ => none, statusHistory := [],
    activeToolCallIds := [], toolNames := [], specChoice := none,
    specChoicePromptSignature := none, specPlanDetailsSignature := none,
    specPlanDetailsToolCallId := none }

/-! ### Risk classification and permission options -/

/-- The fixed read-only tool list of handle.ts / handle-notification.ts. -/
def isReadOnlyTool (toolName : String) : Bool :=
  toolName = "Read" || toolName = "Grep" || toolName = "Glob" || toolName = "LS"

/-- Risk level resolution: the explicit `rawInput.riskLevel` when it is one
of low/medium/high, else low for read-only tools, else medium. -/
def computeRiskLevel (toolName : String) (explicit : Option RiskLevel) : RiskLevel :=
  match explicit with
  | some r => r
  | none => if isReadOnlyTool toolName then RiskLevel.low else RiskLevel.medium

/-- A permission option offered by the subprocess
(`DroidPermissionOption`). -/
structure DroidPermissionOption where
  value : String
  label : String
deriving DecidableEq, Repr

/-- `permissionKindFromOptionValue` from permissions/acp-options.ts,
returning the ACP option kind as a string. -/
def permissionKindFromOptionValue (value : String) : String :=
  if value = "proceed_once" || value = "proceed_edit" then "allow_once"
  else if value = "proceed_auto_run_low" || value = "proceed_auto_run_medium"
      || value = "proceed_auto_run_high" || value = "proceed_auto_run"
      || value = "proceed_always" then "allow_always"
  else if value = "cancel" then "reject_once"
  else "allow_once"

/-- `mapExitSpecModeSelection` from permissions/options.ts: maps the chosen
ACP option id to (next autonomy mode, option value reported to the
subprocess). -/
def mapExitSpecModeSelection (optionId : String) : Option AcpModeId × String :=
  if optionId = "off" then (some AcpModeId.off, "proceed_once")
  else if optionId = "low" then (some AcpModeId.low, "proceed_auto_run_low")
  else if optionId = "medium" then (some AcpModeId.medium, "proceed_auto_run_medium")
  else if optionId = "high" then (some AcpModeId.high, "proceed_auto_run_high")
  else if optionId = "spec" then (some AcpModeId.spec, "cancel")
  -- Back-compat: accept Droid option ids directly.
  else if optionId = "proceed_once" then (some AcpModeId.off, "proceed_once")
  else if optionId = "proceed_auto_run_low" then (some AcpModeId.low, "proceed_auto_run_low")
  else if optionId = "proceed_auto_run_medium" then (some AcpModeId.medium, "proceed_auto_run_medium")
  else if optionId = "proceed_auto_run_high" then (some AcpModeId.high, "proceed_auto_run_high")
  else if optionId = "cancel" then (some AcpModeId.spec, "cancel")
  else (none, optionId)

/-! ### Plan-option extraction (permissions/spec.ts, `extractPlanChoices`)

A character-level translation of the two regex tiers.  JavaScript `\s` is
modelled by `jsWhitespace` (the whitespace characters that occur in plan
markdown); lines are split on the newline character exactly as
`planMarkdown.split("\n")` does. -/

/-- Whitespace for the purposes of `\s` / `trim()`. -/
def jsWhitespace (c : Char) : Bool :=
  c = ' ' || c = '\t' || c = '\n' || c = '\r' ||
  c = Char.ofNat 11 || c = Char.ofNat 12 || c = Char.ofNat 160

/-- `trim()` on a character list. -/
def trimChars (l : List Char) : List Char :=
  ((l.dropWhile jsWhitespace).reverse.dropWhile jsWhitespace).reverse

/-- `line.replace(/^>\s+/, "")`. -/
def stripBlockquote (l : List Char) : List Char :=
  match l with
  | '>' :: c :: rest =>
    if jsWhitespace c then (c :: rest).dropWhile jsWhitespace else l
  | _ => l

/-- `.replace(/^#+\s*/, "")`. -/
def stripHeading (l : List Char) : List Char :=
  match l with
  | '#' :: _ => (l.dropWhile (fun c => c = '#')).dropWhile jsWhitespace
  | _ => l

/-- `.replace(/^[-*]\s+/, "")`. -/
def stripBullet (l : List Char) : List Char :=
  match l with
  | c :: c2 :: rest =>
    if (c = '-' || c = '*') && jsWhitespace c2 then (c2 :: rest).dropWhile jsWhitespace
    else l
  | _ => l

/-- Markdown emphasis characters `*`, `_` and the backquote (U+0060). -/
def isEmphasisChar (c : Char) : Bool :=
  c = '*' || c = '_' || c = Char.ofNat 96

/-- `.replace(/^[*_\x60]+/, "")`. -/
def stripEmphasis (l : List Char) : List Char := l.dropWhile isEmphasisChar

/-- The full stripping pipeline applied to a trimmed line. -/
def strippedLine (l : List Char) : List Char :=
  trimChars (stripEmphasis (trimChars (stripBullet (stripHeading (stripBlockquote l)))))

/-- ASCII letter (what `[A-Z]` matches under the `/i` flag). -/
def isAsciiLetter (c : Char) : Bool :=
  ('A' ≤ c && c ≤ 'Z') || ('a' ≤ c && c ≤ 'z')

/-- The separator class `[：:–—.)-]`. -/
def isChoiceSep (c : Char) : Bool :=
  c = '：' || c = ':' || c = '–' || c = '—' || c = '.' || c = ')' || c = '-'

/-- An extracted labeled plan option. -/
structure PlanChoice where
  id : String
  title : String
deriving DecidableEq, Repr

/-- Shared tail of both patterns: `\s*[：:–—.)-]\s*(.+)$` applied after the
option letter, returning the (trimmed) title.  Lines are already trimmed,
so greedy whitespace matching agrees with the regex backtracking
semantics. -/
def matchSepAndTitle (l : List Char) : Option String :=
  match l.dropWhile jsWhitespace with
  | s :: rest =>
    if isChoiceSep s then
      let title := rest.dropWhile jsWhitespace
      if title.isEmpty then none
      else some (String.mk (trimChars title))
    else none
  | [] => none

/-- The strict pattern `^(?:Option)\s*([A-Z])\s*[：:–—.)-]\s*(.+)$/i`. -/
def matchExplicitChoice (l : List Char) : Option PlanChoice :=
  let head := (l.take 6).map Char.toLower
  if head = ['o', 'p', 't', 'i', 'o', 'n'] then
    match (l.drop 6).dropWhile jsWhitespace with
    | c :: rest =>
      if isAsciiLetter c then
        match matchSepAndTitle rest with
        | some title => some ⟨(Char.toUpper c).toString, title⟩
        | none => none
      else none
    | [] => none
  else none

/-- The loose fallback pattern `^([A-F])\s*[：:–—.)-]\s*(.+)$` (uppercase
only, no `/i`). -/
def matchLooseChoice (l : List Char) : Option PlanChoice :=
  match l with
  | c :: rest =>
    if 'A' ≤ c && c ≤ 'F' then
      match matchSepAndTitle rest with
      | some title => some ⟨c.toString, title⟩
      | none => none
    else none
  | [] => none

/-- Accumulator of the `extractPlanChoices` loop. -/
structure ChoiceAcc where
  explicitChoices : List PlanChoice
  looseChoices : List PlanChoice
  seenExplicit : List String
  seenLoose : List String

/-- One loop iteration of `extractPlanChoices` over a raw line. -/
def planChoiceStep (acc : ChoiceAcc) (rawLine : String) : ChoiceAcc :=
  let line := trimChars rawLine.toList
  if line.isEmpty then acc
  else
    let stripped := strippedLine line
    match matchExplicitChoice stripped with
    | some ch =>
      if ch.id ∈ acc.seenExplicit then acc
      else { acc with
             explicitChoices := acc.explicitChoices ++ [ch],
             seenExplicit := acc.seenExplicit ++ [ch.id] }
    | none =>
      match matchLooseChoice stripped with
      | some ch =>
        if ch.id ∈ acc.seenLoose then acc
        else { acc with
               looseChoices := acc.looseChoices ++ [ch],
               seenLoose := acc.seenLoose ++ [ch.id] }
      | none => acc

/-- `planMarkdown.split("\n")`: split on newline characters keeping empty
segments, as JavaScript `String.prototype.split` does. -/
def splitLines (s : String) : List String :=
  (s.toList.foldr
    (fun ch acc =>
      if ch = '\n' then [] :: acc
      else
        match acc with
        | h :: t => (ch :: h) :: t
        | [] => [[ch]])
    [([] : List Char)]).map String.mk

/-- `extractPlanChoices`: explicit "Option X" lines win; otherwise loose
"X: ..." lines count only when at least two are found. -/
def extractPlanChoices (planMarkdown : String) : List PlanChoice :=
  let acc := (splitLines planMarkdown).foldl planChoiceStep ⟨[], [], [], []⟩
  if acc.explicitChoices ≠ [] then acc.explicitChoices
  else if acc.looseChoices.length ≥ 2 then acc.looseChoices
  else []

/-! ### Effects, outcomes, permission pipeline -/

/-- Observable effects: `client.sessionUpdate` variants, escalations to the
human, and sends to the subprocess / lifecycle events. -/
inductive Eff where
  | toolCall (id : String) (status : ToolStatus)
  | toolCallUpdate (id : String) (status : ToolStatus) (text : Option String)
  | requestPerm (id : String)
  | planDialog (id : String)
  | planDetails (id : String)
  | planUpdate
  | currentModeUpdate (m : AcpModeId)
  | agentMessage (text : String)
  | droidSend (text : String)
  | promptResolved (stopReason : String)
  | captureRejected
  | droidStopped (gen : Nat)
  | droidStarted (gen : Nat) (resume : Option String)
  | setModeSent (gen : Nat) (level : String)
  | setModelSent (gen : Nat) (modelId : String)
  | sessionInfoUpdate
  | availableCommandsUpdate
  | userMessageSent (gen : Nat) (text : String)
deriving DecidableEq, Repr

/-- Result of a `client.requestPermission` round-trip: the human selected
an option, or the request resolved with the "cancelled" outcome. -/
inductive PermOutcome where
  | selected (optionId : String)
  | notSelected
deriving DecidableEq, Repr

/-- Environment choices made outside the bridge during one permission
request: `escalation = none` models `client.requestPermission` throwing;
`planDialogOutcome` is the human's answer to the choose-plan dialog. -/
structure PermEnv where
  escalation : Option PermOutcome
  planDialogOutcome : PermOutcome
deriving DecidableEq, Repr

/-- The fields of a tool call's `rawInput` that the modelled code reads.
`specTitle`/`specPlan` stand for the result of `extractSpecTitleAndPlan`
(pure field plumbing over untyped JSON, not modelled field by field). -/
structure RawInput where
  command : Option String
  riskLevel : Option RiskLevel
  specTitle : Option String
  specPlan : Option String
deriving DecidableEq, Repr

/-- Match `^choose_plan:([A-Z])$` against a selected option id. -/
def parseChoosePlanOption (optionId : String) : Option String :=
  let l := optionId.toList
  if l.take 12 = "choose_plan:".toList then
    match l.drop 12 with
    | [c] => if 'A' ≤ c && c ≤ 'Z' then some c.toString else none
    | _ => none
  else none

/-- The two signature-keyed entry steps of
`maybeHandleExitSpecModePlanChoice`: reset the stored choice when the
choose-plan signature changed, and (re-)emit the plan-details tool call
when the plan-details signature changed. -/
def planChoiceUpdateSigs (s : Session) (toolCallId : String) (signature : String) :
    Session × List Eff :=
  let s1 := if s.specChoicePromptSignature ≠ some signature then
      { s with specChoicePromptSignature := some signature, specChoice := none }
    else s
  if s1.specPlanDetailsSignature ≠ some signature then
    ({ s1 with specPlanDetailsSignature := some signature,
               specPlanDetailsToolCallId := some (toolCallId ++ ":plan_details") },
     [Eff.planDetails (toolCallId ++ ":plan_details")])
  else (s1, [])

/-- `maybeHandleExitSpecModePlanChoice` from permissions/exit-spec.ts:
signature-keyed plan-details emission and choose-plan sub-dialog.  Returns
the updated session, the emitted effects, and `some "cancel"` when the
sub-dialog consumed the permission request (stay in spec mode). -/
def maybeHandleExitSpecModePlanChoice (s : Session) (toolCallId : String)
    (planTitle : Option String) (planMarkdown : String) (env : PermEnv) :
    Session × List Eff × Option String :=
  let signature := planTitle.getD "" ++ "\n" ++ planMarkdown
  match planChoiceUpdateSigs s toolCallId signature with
  | (s2, effs1) =>
  if s2.specChoice ≠ none then (s2, effs1, none)
  else
    let choices := extractPlanChoices planMarkdown
    if choices.isEmpty then (s2, effs1, none)
    else
      let effs2 := effs1 ++ [Eff.planDialog (toolCallId ++ ":choose_plan")]
      let outcome := match env.planDialogOutcome with
        | PermOutcome.selected oid => oid
        | PermOutcome.notSelected => "choose_plan:skip"
      match parseChoosePlanOption outcome with
      | none => ({ s2 with specChoice := some "skip" }, effs2, none)
      | some choiceId =>
        let s3 := { s2 with specChoice := some choiceId }
        let effs3 := effs2 ++
          [Eff.toolCallUpdate (toolCallId ++ ":choose_plan") ToolStatus.completed none]
        let s4 := removeActive (setStatus s3 toolCallId ToolStatus.completed) toolCallId
        let effs4 := effs3 ++
          [Eff.toolCallUpdate toolCallId ToolStatus.completed
            (some ("Continuing in spec mode with Option " ++ choiceId ++ ".")),
           Eff.agentMessage ("Selected Option " ++ choiceId ++ ". Continuing in spec mode."),
           Eff.droidSend ("I choose Option " ++ choiceId ++ ". Please continue refining the plan and key changes based on this option, and when you are ready to execute, prompt to exit spec mode.")]
        (s4, effs4, some "cancel")

/-- `emitExitSpecModePlanUpdate`: both source branches send exactly one
"plan" session update when the markdown trims nonempty (entries from
checkbox/bullet lines, else one whole-plan entry), and nothing when it
trims empty. -/
def emitExitSpecModePlanUpdatePure (planMarkdown : String) : List Eff :=
  if (trimChars planMarkdown.toList).isEmpty then [] else [Eff.planUpdate]

/-- Resolution of an auto decision against the subprocess-offered options
(decide.ts lines building `selectedOption` from `autoDecision`). -/
def resolveAutoOption (autoDecision : String)
    (droidOptions : Option (List DroidPermissionOption)) : String :=
  if (match droidOptions with
      | some os => os.any (fun o => o.value == autoDecision)
      | none => false) then autoDecision
  else if autoDecision = "cancel" then "cancel"
  else match droidOptions with
    | some os =>
      match os.find? (fun o => permissionKindFromOptionValue o.value == "allow_once") with
      | some o => o.value
      | none =>
        match os.find? (fun o => o.value != "cancel") with
        | some o => o.value
        | none => "proceed_once"
    | none => autoDecision

/-- Parameters `decidePermission` receives from `handlePermission`. -/
structure PermParams where
  toolCallId : String
  toolName : String
  riskLevel : RiskLevel
  rawInput : RawInput
  droidOptions : Option (List DroidPermissionOption)
deriving DecidableEq, Repr

/-- Risk level as the string used in messages. -/
def riskLevelString : RiskLevel → String
  | RiskLevel.low => "low"
  | RiskLevel.medium => "medium"
  | RiskLevel.high => "high"

/-- Final bookkeeping of a human decision (decide.ts lines 342-385): map
the status from the selected option, write it, deactivate completed
calls, and emit the closing update (always for ExitSpecMode, only for
non-cancel selections otherwise). -/
def decideFinish (s2 : Session) (effs4 : List Eff) (toolCallId toolName : String)
    (selectedOption : String) : Session × List Eff × String :=
  let isExit := toolName = "ExitSpecMode"
  let status := if selectedOption = "cancel" || isExit
    then ToolStatus.completed else ToolStatus.inProgress
  let s3 := setStatus s2 toolCallId status
  let s4 := if status = ToolStatus.completed then removeActive s3 toolCallId else s3
  let effs5 :=
    if isExit then
      effs4 ++ [Eff.toolCallUpdate toolCallId status
        (if selectedOption = "cancel" then some "Staying in Spec mode." else none)]
    else if selectedOption ≠ "cancel" then
      effs4 ++ [Eff.toolCallUpdate toolCallId status none]
    else effs4
  (s4, effs5, selectedOption)

/-- The human-decision tail of `decidePermission` after the escalation
returned an outcome: ExitSpecMode selections are mapped to a mode switch
(with a mode update to the editor) before the shared final bookkeeping. -/
def decideEscalated (s1 : Session) (effs3 : List Eff) (toolCallId toolName sel0 : String) :
    Session × List Eff × String :=
  if toolName = "ExitSpecMode" then
    match (mapExitSpecModeSelection sel0).1 with
    | some nextMode =>
      decideFinish { s1 with mode := nextMode }
        (effs3 ++ [Eff.currentModeUpdate nextMode])
        toolCallId toolName (mapExitSpecModeSelection sel0).2
    | none =>
      decideFinish s1 effs3 toolCallId toolName (mapExitSpecModeSelection sel0).2
  else decideFinish s1 effs3 toolCallId toolName sel0

/-- `decidePermission` from permissions/decide.ts: early cancel path,
ExitSpecMode plan sub-dialog, auto decision, escalation to the human with
its failure handling, ExitSpecMode selection mapping, and the final
status/update bookkeeping.  Returns (session, effects, selectedOption
reported to the subprocess). -/
def decidePermission (s : Session) (p : PermParams) (env : PermEnv) :
    Session × List Eff × String :=
  if s.cancelled then
    let s1 := removeActive (setStatus s p.toolCallId ToolStatus.completed) p.toolCallId
    (s1, [Eff.toolCallUpdate p.toolCallId ToolStatus.completed none], "cancel")
  else
    let droidOptions : Option (List DroidPermissionOption) :=
      match p.droidOptions with
      | some l => if l.isEmpty then none else some l
      | none => none
    let planTitle := p.rawInput.specTitle
    let planMarkdown := p.rawInput.specPlan
    let planPhase : Session × List Eff × Option String :=
      match planMarkdown with
      | some md =>
        if p.toolName = "ExitSpecMode" then
          maybeHandleExitSpecModePlanChoice s p.toolCallId planTitle md env
        else (s, [], none)
      | none => (s, [], none)
    match planPhase with
    | (s1, effs1, some early) => (s1, effs1, early)
    | (s1, effs1, none) =>
      let effs2 := effs1 ++
        (match planMarkdown with
         | some md =>
           if p.toolName = "ExitSpecMode" then emitExitSpecModePlanUpdatePure md else []
         | none => [])
      match computeAutoDecision p.toolName s1.mode p.riskLevel with
      | some autoDecision =>
        let selectedOption := resolveAutoOption autoDecision droidOptions
        let isExit := p.toolName = "ExitSpecMode"
        let status := if selectedOption = "cancel" || isExit
          then ToolStatus.completed else ToolStatus.inProgress
        let s2 := setStatus s1 p.toolCallId status
        let s3 := if status = ToolStatus.completed then removeActive s2 p.toolCallId else s2
        let text := if selectedOption = "cancel" then
            some ("Permission denied for " ++ p.toolName ++ " (" ++
              riskLevelString p.riskLevel ++ ").")
          else none
        (s3, effs2 ++ [Eff.toolCallUpdate p.toolCallId status text], selectedOption)
      | none =>
        let effs3 := effs2 ++ [Eff.requestPerm p.toolCallId]
        match env.escalation with
        | none =>
          -- requestPermission threw: mark completed with a failure message, cancel.
          let s2 := removeActive (setStatus s1 p.toolCallId ToolStatus.completed) p.toolCallId
          (s2,
           effs3 ++ [Eff.toolCallUpdate p.toolCallId ToolStatus.completed
             (some ("Permission request failed for " ++ p.toolName ++
               ". Cancelling the operation."))],
           "cancel")
        | some outcome =>
          decideEscalated s1 effs3 p.toolCallId p.toolName
            (match outcome with
             | PermOutcome.selected oid => oid
             | PermOutcome.notSelected => "cancel")

/-- The `toolUses[0].toolUse` of a subprocess permission request. -/
structure ToolUseReq where
  id : String
  name : String
  input : RawInput
deriving DecidableEq, Repr

/-- A subprocess permission request as seen by `handlePermission`:
`toolUse = none` models `params.toolUses?.[0]?.toolUse` being absent;
`options` is the `extractDroidPermissionOptions` result. -/
structure PermissionRequestModel where
  toolUse : Option ToolUseReq
  options : Option (List DroidPermissionOption)
deriving DecidableEq, Repr

/-- `handlePermission` from permissions/handle.ts: no tool use means an
immediate `proceed_once`; otherwise risk resolution, tool-call bookkeeping
(unconditionally setting the status to pending, de-duping the client
update if the id is already active), then `decidePermission`.  Title /
kind / location / diff-content formatting is pure presentation and is
elided. -/
def handlePermission (s : Session) (req : PermissionRequestModel) (env : PermEnv) :
    Session × List Eff × String :=
  match req.toolUse with
  | none => (s, [], "proceed_once")
  | some tu =>
    let toolCallId := tu.id
    let toolName := tu.name
    let riskLevel := computeRiskLevel toolName tu.input.riskLevel
    let alreadyTracked := toolCallId ∈ s.activeToolCallIds
    let s1 := setStatus (setToolName (addActive s toolCallId) toolCallId toolName)
      toolCallId ToolStatus.pending
    let eff0 : List Eff := if alreadyTracked
      then [Eff.toolCallUpdate toolCallId ToolStatus.pending none]
      else [Eff.toolCall toolCallId ToolStatus.pending]
    match decidePermission s1 ⟨toolCallId, toolName, riskLevel, tu.input, req.options⟩ env with
    | (s2, effs, sel) => (s2, eff0 ++ effs, sel)

/-- The tool_use branch of `handleNotification`'s assistant-message case
(handle-notification.ts lines 148-236): skipped for cancelled sessions and
for finalized ids; creates the tool call as pending (ExitSpecMode) or
in_progress, or promotes an already-active non-pending call to
in_progress. -/
def handleToolUseNotification (s : Session) (id name : String) (_input : RawInput) :
    Session × List Eff :=
  if s.cancelled then (s, [])
  else if name = "TodoWrite" then (s, [])
  else
    let existing := s.toolCallStatus id
    if existing = some ToolStatus.completed ∨ existing = some ToolStatus.failed then (s, [])
    else if id ∈ s.activeToolCallIds then
      if existing ≠ some ToolStatus.completed ∧ existing ≠ some ToolStatus.failed ∧
          existing ≠ some ToolStatus.pending then
        (setStatus s id ToolStatus.inProgress,
         [Eff.toolCallUpdate id ToolStatus.inProgress none])
      else (s, [])
    else
      let isExit := name = "ExitSpecMode"
      let initialStatus := if isExit then ToolStatus.pending else ToolStatus.inProgress
      let s1 := setStatus (setToolName (addActive s id) id name) id initialStatus
      (s1, [Eff.toolCall id initialStatus])

/-- The tool_result case of `handleNotification` (lines 252-298): re-adds
an untracked id as in_progress, then records the final status
(failed on error, completed otherwise) and deactivates the id. -/
def handleToolResultNotification (s : Session) (id content : String) (isError : Bool) :
    Session × List Eff :=
  if s.cancelled then (s, [])
  else
    let pre : Session × List Eff :=
      if id ∈ s.activeToolCallIds then (s, [])
      else (addActive s id, [Eff.toolCall id ToolStatus.inProgress])
    match pre with
    | (s1, effs1) =>
      let finalStatus := if isError then ToolStatus.failed else ToolStatus.completed
      let s2 := removeActive (setStatus s1 id finalStatus) id
      (s2, effs1 ++ [Eff.toolCallUpdate id finalStatus (some content)])

/-- Helper loop of `finalizeActiveToolCalls`: complete each id in order. -/
def finalizeIds (msg : String) : Session → List String → Session × List Eff
  | s, [] => (s, [])
  | s, id :: rest =>
    let s1 := setStatus s id ToolStatus.completed
    match finalizeIds msg s1 rest with
    | (s2, effs) => (s2, Eff.toolCallUpdate id ToolStatus.completed (some msg) :: effs)

/-- `finalizeActiveToolCalls` from session/restart.ts: snapshot the active
set, clear it, then complete every snapshotted id with the message. -/
def finalizeActiveToolCalls (s : Session) (message : String) : Session × List Eff :=
  let active := s.activeToolCallIds
  if active.isEmpty then (s, [])
  else finalizeIds message { s with activeToolCallIds := [] } active

/-- The operations that write to a session's tool-call status mapping. -/
inductive SessionOp where
  | toolUseNote (id name : String) (input : RawInput)
  | toolResultNote (id : String) (content : String) (isError : Bool)
  | permission (req : PermissionRequestModel) (env : PermEnv)
  | finalizeActive (message : String)

/-- Apply one operation (dropping the permission result value). -/
def applyOp (s : Session) : SessionOp → Session × List Eff
  | SessionOp.toolUseNote id name input => handleToolUseNotification s id name input
  | SessionOp.toolResultNote id content isError =>
    handleToolResultNotification s id content isError
  | SessionOp.permission req env =>
    match handlePermission s req env with
    | (s', effs, _) => (s', effs)
  | SessionOp.finalizeActive message => finalizeActiveToolCalls s message

/-- Run a sequence of operations. -/
def runOps (s : Session) : List SessionOp → Session
  | [] => s
  | op :: rest => runOps (applyOp s op).1 rest

/-! ### Status-history machinery for the monotonicity claim -/

/-- Forward rank of a status along pending → in_progress → terminal. -/
def statusRank : ToolStatus → Nat
  | ToolStatus.pending => 0
  | ToolStatus.inProgress => 1
  | ToolStatus.completed => 2
  | ToolStatus.failed => 2

/-- completed / failed are terminal. -/
def isTerminalStatus : ToolStatus → Bool
  | ToolStatus.completed => true
  | ToolStatus.failed => true
  | _ => false

/-- One admissible history step: the rank never decreases and a terminal
status never changes to a different status. -/
def monoRel (a b : ToolStatus) : Prop :=
  statusRank a ≤ statusRank b ∧ (isTerminalStatus a = true → b = a)

instance : DecidableRel monoRel := fun a b =>
  inferInstanceAs
    (Decidable (statusRank a ≤ statusRank b ∧ (isTerminalStatus a = true → b = a)))

/-- The statuses ever recorded for an identifier, in write order. -/
def historyFor (id : String) : List (String × ToolStatus) → List ToolStatus
  | [] => []
  | e :: rest =>
    if e.1 = id then e.2 :: historyFor id rest else historyFor id rest

/-- The per-identifier status sequence is monotone. -/
def monoHistory (id : String) (s : Session) : Prop :=
  List.Chain' monoRel (historyFor id s.statusHistory)

/-- Restriction under which monotonicity does hold: a permission request
never arrives for an identifier already in the status mapping, and a tool
result never arrives for an identifier already finalized. -/
def opOk (s : Session) : SessionOp → Bool
  | SessionOp.permission req _ =>
    match req.toolUse with
    | some tu => (s.toolCallStatus tu.id).isNone
    | none => true
  | SessionOp.toolResultNote id _ _ =>
    match s.toolCallStatus id with
    | some st => !isTerminalStatus st
    | none => true
  | _ => true

/-- `opOk` holds at every step of the run. -/
def opsRestricted (s : Session) : List SessionOp → Bool
  | [] => true
  | op :: rest => opOk s op && opsRestricted (applyOp s op).1 rest

/-- History invariant: every identifier's recorded status sequence is
monotone, and the last recorded status agrees with the mapping. -/
def InvH (hist : List (String × ToolStatus)) (lookup : String → Option ToolStatus) : Prop :=
  (∀ id, List.Chain' monoRel (historyFor id hist)) ∧
  (∀ id, (historyFor id hist).getLast? = lookup id)

/-- Active-set invariant: active identifiers are pending or in_progress,
and every non-terminal tracked identifier is active. -/
def InvAct (lookup : String → Option ToolStatus) (active : List String) : Prop :=
  (∀ id ∈ active,
    lookup id = some ToolStatus.pending ∨ lookup id = some ToolStatus.inProgress) ∧
  (∀ id a, lookup id = some a → isTerminalStatus a = false → id ∈ active)

/-- Combined session invariant for the tool-call bookkeeping. -/
def SessInv (s : Session) : Prop :=
  InvH s.statusHistory s.toolCallStatus ∧ InvAct s.toolCallStatus s.activeToolCallIds

/-- A raw input with none of the inspected fields present. -/
def rawInputEmpty : RawInput := ⟨none, none, none, none⟩

/-- Operation sequence exhibiting the two status regressions: a tool_use
block creates "t1" as in_progress, the subsequent permission sub-request
for the same id resets it to pending, and a duplicate tool result flips
the terminal completed into failed. -/
def c3CounterOps : List SessionOp :=
  [SessionOp.toolUseNote "t1" "Bash" rawInputEmpty,
   SessionOp.permission ⟨some ⟨"t1", "Bash", rawInputEmpty⟩, none⟩
     ⟨some (PermOutcome.selected "proceed_once"), PermOutcome.notSelected⟩,
   SessionOp.toolResultNote "t1" "ok" false,
   SessionOp.toolResultNote "t1" "boom" true]

/-- A restricted operation sequence (fresh permission id, single tool
result) used to witness the amended monotonicity theorem. -/
def c3RestrictedOps : List SessionOp :=
  [SessionOp.permission ⟨some ⟨"t2", "Bash", rawInputEmpty⟩, none⟩
     ⟨some (PermOutcome.selected "proceed_once"), PermOutcome.notSelected⟩,
   SessionOp.toolUseNote "t2" "Bash" rawInputEmpty,
   SessionOp.toolResultNote "t2" "ok" false,
   SessionOp.finalizeActive "Cancelled."]

/-- Whether the effect list contains a tool_call_update for `id` marking
it completed with a non-empty message text (a "decline message"). -/
def hasDeclineUpdate (effs : List Eff) (id : String) : Bool :=
  effs.any fun e =>
    match e with
    | Eff.toolCallUpdate i st (some t) =>
      decide (i = id) && decide (st = ToolStatus.completed) && decide (t ≠ "")
    | _ => false

/-- A permission request for an ordinary (non-ExitSpecMode) tool. -/
def c7Req : PermissionRequestModel := ⟨some ⟨"t1", "Bash", rawInputEmpty⟩, none⟩

/-- Escalation environment in which the human rejects the request (the
reject option "cancel" is selected). -/
def c7EnvRejected : PermEnv := ⟨some (PermOutcome.selected "cancel"), PermOutcome.notSelected⟩

/-- Decide-time parameters for an ordinary medium-risk tool. -/
def c7Params : PermParams := ⟨"t1", "Bash", RiskLevel.medium, rawInputEmpty, none⟩

/-- Escalation environment in which `requestPermission` throws. -/
def c7EnvThrow : PermEnv := ⟨none, PermOutcome.notSelected⟩

/-- Number of plan-details tool_call emissions in an effect list. -/
def planDetailsCount (effs : List Eff) : Nat :=
  effs.countP fun e =>
    match e with
    | Eff.planDetails _ => true
    | _ => false

/-- Number of choose-plan dialog requests in an effect list. -/
def planDialogCount (effs : List Eff) : Nat :=
  effs.countP fun e =>
    match e with
    | Eff.planDialog _ => true
    | _ => false

/-- A plan with two labeled options. -/
def c9Plan1 : String := "Option A: first\nOption B: second"

/-- A changed plan with no labeled options. -/
def c9Plan2 : String := "no labeled options here"

/-- A second changed plan with two labeled options. -/
def c9Plan3 : String := "Option C: third\nOption D: fourth"

/-- Environment in which the human picks Option A in the choose-plan
dialog. -/
def c9Env1 : PermEnv := ⟨some PermOutcome.notSelected, PermOutcome.selected "choose_plan:A"⟩

/-- Session state after presenting the first plan. -/
def c9State1 : Session :=
  (maybeHandleExitSpecModePlanChoice (permInit AcpModeId.spec) "tc" none c9Plan1 c9Env1).1

/-! ### Request dispatch fallbacks (C10) -/

/-- The permission-request dispatch path: droid-adapter.ts `handleLine`
(request case) composed with the `onRequest` closure registered by
`attachSession`.  `handlerRegistered` models whether `onRequest` was ever
called; `adapterGen` is the adapter instance the request arrived on, to be
compared against the live `session.droid`. -/
def respondToPermissionRequest (handlerRegistered : Bool)
    (sessions : String → Option Session) (sid : String) (adapterGen : Nat)
    (req : PermissionRequestModel) (env : PermEnv) : String :=
  if handlerRegistered = false then "proceed_once"
  else
    match sessions sid with
    | none => "proceed_once"
    | some current =>
      if current.droidGen ≠ adapterGen then "proceed_once"
      else (handlePermission current req env).2.2

/-! ### Session lifecycle: attach, restart, cancel, prompt -/

/-- `ACP_MODE_TO_DROID_AUTONOMY` from constants.ts. -/
def acpModeToDroidAutonomy : AcpModeId → String
  | AcpModeId.off => "normal"
  | AcpModeId.low => "auto-low"
  | AcpModeId.medium => "auto-medium"
  | AcpModeId.high => "auto-high"
  | AcpModeId.spec => "spec"

/-- `droidAutonomyToAcpModeId` from constants.ts (including the legacy
"suggest"/"full" values). -/
def droidAutonomyToAcpModeId (value : String) : Option AcpModeId :=
  if value = "normal" then some AcpModeId.off
  else if value = "auto-low" then some AcpModeId.low
  else if value = "auto-medium" then some AcpModeId.medium
  else if value = "auto-high" then some AcpModeId.high
  else if value = "spec" then some AcpModeId.spec
  else if value = "suggest" then some AcpModeId.low
  else if value = "full" then some AcpModeId.high
  else none

/-- What `droid.start()` reports (`InitSessionResult`): the subprocess
session id, the settings' model id and autonomy level, and the offered
model ids. -/
structure InitSessionResult where
  sessionId : String
  modelId : Option String
  autonomyLevel : Option String
  availableModels : List String
deriving DecidableEq, Repr

/-- The session registry together with ghost allocators: `nextObjId` tags
the next JavaScript object identity, `nextDroidGen` the next subprocess
adapter instance. -/
structure World where
  sessions : String → Option Session
  nextObjId : Nat
  nextDroidGen : Nat

/-- The `session` object literal built by `attachSession` (attach-session.ts
lines 40-66): a brand-new object with no in-flight work, carrying the init
result's subprocess-session id, model and mode. -/
def attachedSession (objId droidGen : Nat) (sessionId : String)
    (init : InitSessionResult) (title : Option String) : Session :=
  { id := sessionId, objId := objId, droidGen := droidGen,
    droidSessionId := init.sessionId, droidRunning := true,
    title := some (title.getD "New Session"),
    pendingHistoryContext := none,
    model := match init.modelId with
      | some m => if m = "" then "unknown" else m
      | none => "unknown",
    mode := match init.autonomyLevel with
      | some lv => (droidAutonomyToAcpModeId lv).getD AcpModeId.off
      | none => AcpModeId.off,
    keepAliveOnDroidExit := false, cancelled := false, restartPending := false,
    promptResolve := false, capture := false,
    availableModels := init.availableModels,
    toolCallStatus := fun _ => none, statusHistory := [],
    activeToolCallIds := [], toolNames := [], specChoice := none,
    specChoicePromptSignature := none, specPlanDetailsSignature := none,
    specPlanDetailsToolCallId := none }

/-- `attachSession`: construct the new session object and register it in
the session registry under `sessionId` (`params.sessions.set(sessionId,
session)`), replacing whatever object was registered before. -/
def attachSession (w : World) (sessionId : String) (droidGen : Nat)
    (init : InitSessionResult) (title : Option String) : World × Session :=
  let session := attachedSession w.nextObjId droidGen sessionId init title
  ({ w with
      sessions := fun x => if x = sessionId then some session else w.sessions x,
      nextObjId := w.nextObjId + 1 },
   session)

/-- Environment choices made outside the bridge during one restart: whether
resuming the recorded subprocess session succeeds, and what `droid.start()`
reports for the resumed respectively the fresh subprocess. -/
structure RestartEnv where
  resumeSucceeds : Bool
  resumedInit : InitSessionResult
  freshInit : InitSessionResult
deriving DecidableEq, Repr

/-- The session object held in the registry when a restart completes: the
object `attachSession` builds (for the resumed init when resuming was
attempted and succeeded, else for the fresh init), mutated in place by the
restart body (history context and mode carried over, model re-applied when
still offered) and by the `finally` block (flags cleared). -/
def restartNewSession (w : World) (sessionId : String) (session : Session)
    (env : RestartEnv) : Session :=
  let init := if (session.droidSessionId != "") && env.resumeSucceeds
    then env.resumedInit else env.freshInit
  let base := attachedSession w.nextObjId w.nextDroidGen sessionId init session.title
  { base with
    pendingHistoryContext := session.pendingHistoryContext,
    mode := session.mode,
    model := if session.model ∈ init.availableModels then session.model
      else base.model,
    cancelled := false, restartPending := false, keepAliveOnDroidExit := false }

/-- `restartDroidSession`'s body after its two guards (restart.ts lines
56-142), run to completion: stop the old subprocess, start a resumed or
fresh replacement, attach a new session object under the same registry key
(the model writes the object's final value once, since `attachSession`
registers the very object the rest of the body then mutates), re-apply the
mode (with a `current_mode_update` to the editor) and, when still offered,
the model. -/
def restartCore (w : World) (sessionId : String) (session : Session)
    (env : RestartEnv) : World × List Eff :=
  let resumed := (session.droidSessionId != "") && env.resumeSucceeds
  let init := if resumed then env.resumedInit else env.freshInit
  let ns := restartNewSession w sessionId session env
  let w3 : World :=
    { sessions := fun x => if x = sessionId then some ns else w.sessions x,
      nextObjId := w.nextObjId + 1,
      nextDroidGen := w.nextDroidGen + 1 }
  (w3,
   [Eff.droidStopped session.droidGen,
    Eff.droidStarted w.nextDroidGen
      (if resumed then some session.droidSessionId else none),
    Eff.setModeSent w.nextDroidGen (acpModeToDroidAutonomy session.mode),
    Eff.currentModeUpdate session.mode] ++
   (if session.model ∈ init.availableModels
    then [Eff.setModelSent w.nextDroidGen session.model] else []))

/-- `restartDroidSession`: no-op when the session is unknown, return the
in-flight restart when one is already pending, else run the restart body. -/
def restartDroidSession (w : World) (sessionId : String) (env : RestartEnv) :
    World × List Eff :=
  match w.sessions sessionId with
  | none => (w, [])
  | some session =>
    if session.restartPending then (w, [])
    else restartCore w sessionId session env

/-- The tail of `cancel` shared by all in-flight shapes: finalize the
active tool calls with "Cancelled." and restart the subprocess session. -/
def cancelFinish (w : World) (sessionId : String) (s3 : Session)
    (effsPre : List Eff) (env : RestartEnv) : World × List Eff :=
  match finalizeActiveToolCalls s3 "Cancelled." with
  | (s4, effs3) =>
    let w1 : World := { w with
      sessions := fun x => if x = sessionId then some s4 else w.sessions x }
    match restartDroidSession w1 sessionId env with
    | (w2, effs4) => (w2, effsPre ++ effs3 ++ effs4)

/-- `cancel` from part of agent.ts: a no-op without in-flight work
(no pending continuation, no capture, no active tool calls); otherwise mark
the session cancelled, resolve the prompt continuation with "cancelled",
reject the capture, finalize the active tool calls and restart. -/
def cancelOp (w : World) (sessionId : String) (env : RestartEnv) :
    World × List Eff :=
  match w.sessions sessionId with
  | none => (w, [])
  | some session =>
    let hasInFlightWork := session.promptResolve || session.capture ||
      !session.activeToolCallIds.isEmpty
    if hasInFlightWork then
      let s1 := { session with cancelled := true }
      let s2 := if s1.promptResolve then { s1 with promptResolve := false } else s1
      let effs1 := if s1.promptResolve then [Eff.promptResolved "cancelled"] else []
      let s3 := if s2.capture then { s2 with capture := false } else s2
      let effs2 := if s2.capture then [Eff.captureRejected] else []
      cancelFinish w sessionId s3 (effs1 ++ effs2) env
    else (w, [])

/-- Result of a `prompt` call: one of the two thrown errors, or the turn
started (continuation installed, user message sent). -/
inductive PromptResult where
  | errSessionNotFound
  | errPromptInProgress
  | started
deriving DecidableEq, Repr

/-- `prompt`: reject unknown sessions, reject a second prompt while a
continuation is outstanding (before any side effect), otherwise get a
ready session (restarting first when the session was cancelled or its
subprocess died), emit the session-info update, install the continuation
and send the user message.  Title derivation, slash commands and the
pending history context are presentation details and are elided. -/
def promptOp (w : World) (sessionId : String) (text : String) (env : RestartEnv) :
    World × List Eff × PromptResult :=
  match w.sessions sessionId with
  | none => (w, [], PromptResult.errSessionNotFound)
  | some session =>
    if session.promptResolve then (w, [], PromptResult.errPromptInProgress)
    else
      let wr := if session.cancelled || !session.droidRunning
        then restartDroidSession w sessionId env
        else (w, [])
      match wr.1.sessions sessionId with
      | none => (wr.1, wr.2, PromptResult.errSessionNotFound)
      | some ready =>
        let ready2 := { ready with promptResolve := true }
        let w2 : World := { wr.1 with
          sessions := fun x => if x = sessionId then some ready2 else wr.1.sessions x }
        (w2,
         wr.2 ++ [Eff.sessionInfoUpdate, Eff.userMessageSent ready.droidGen text],
         PromptResult.started)

/-- A session with an outstanding prompt continuation and one active tool
call. -/
def c5Session : Session :=
  { permInit AcpModeId.medium with promptResolve := true,
                                   activeToolCallIds := ["t1"] }

/-- A registry holding `c5Session` under "sess". -/
def c5World : World :=
  ⟨fun x => if x = "sess" then some c5Session else none, 1, 1⟩

/-- A restart environment in which resuming succeeds and the old model is
still offered. -/
def c5Env : RestartEnv :=
  ⟨true, ⟨"droid-sess", some "m1", some "normal", ["m1"]⟩,
   ⟨"droid-2", some "m1", some "normal", ["m1"]⟩⟩

/-- A session with an outstanding prompt continuation and no other
in-flight work. -/
def c4Session : Session := { permInit AcpModeId.off with promptResolve := true }

/-- A registry holding `c4Session` under "sess". -/
def c4World : World :=
  ⟨fun x => if x = "sess" then some c4Session else none, 1, 1⟩

/-- Init result of the first subprocess of the C6 scenario. -/
def c6Init : InitSessionResult := ⟨"droid-1", some "m1", some "spec", ["m1"]⟩

/-- Empty registry; object id 0 and adapter generation 0 are handed to the
first attach. -/
def c6World0 : World := ⟨fun _ => none, 0, 1⟩

/-- The session object of the first attach. -/
def c6Session : Session := attachedSession 0 0 "sess" c6Init none

/-- World after the first attach. -/
def c6World1 : World := (attachSession c6World0 "sess" 0 c6Init none).1

/-- A restart environment in which resuming fails, so a fresh subprocess
session "droid-2" is adopted. -/
def c6Env : RestartEnv :=
  ⟨false, c6Init, ⟨"droid-2", some "m1", some "spec", ["m1"]⟩⟩

/-- World after restarting the C6 session. -/
def c6World2 : World := (restartDroidSession c6World1 "sess" c6Env).1

/-- The race scenario of C2: streaming starts, idle arrives early, then the
final assistant message arrives (before the grace timer fires). -/
def raceEvents : List ReconEvent :=
  [ReconEvent.workingState "streaming_assistant_message",
   ReconEvent.workingState "idle",
   ReconEvent.createMessage "assistant" ["done"] []]

/-- The no-trailing-message scenario of C2: streaming starts, idle arrives,
no assistant message follows, and the 250ms grace timer fires. -/
def idleOnlyEvents : List ReconEvent :=
  [ReconEvent.workingState "streaming_assistant_message",
   ReconEvent.workingState "idle"]

end DroidAcp

namespace DroidAcp

/-- C1: the engine's automatic decision agrees with the spec's policy table,
and the reserved "ExitSpecMode" tool always escalates. -/
theorem computeAutoDecision_matches_policy_table :
    ∀ (t : String) (m : AcpModeId) (r : RiskLevel),
      classifyDecision (computeAutoDecision t m r) =
        (if t = "ExitSpecMode" then DecisionClass.escalate else specPolicyTable m r) := by
  intro t m r
  by_cases h : t = "ExitSpecMode"
  · simp [computeAutoDecision, classifyDecision, h]
  · cases m <;> cases r <;>
      simp [computeAutoDecision, classifyDecision, specPolicyTable, h]

/-- Number of `complete` notifications in an emission list. -/
def countComplete (l : List ReconOut) : Nat := l.countP (fun o => o = ReconOut.complete)

/-- C2: in the idle-before-final-message race ([streaming-start, idle,
assistant-message]) the reconciler emits `complete` exactly once, after
forwarding the assistant message and never before it; and with no trailing
assistant message ([streaming-start, idle]) no `complete` is emitted until
the grace timer fires, at which point it is emitted exactly once. -/
theorem reconciler_idle_race_complete_once :
    (reconRun reconInit raceEvents).2 =
      [ReconOut.workingState "streaming_assistant_message",
       ReconOut.workingState "idle",
       ReconOut.message "assistant" "done",
       ReconOut.complete] ∧
    countComplete (reconRun reconInit raceEvents).2 = 1 ∧
    (reconRun reconInit idleOnlyEvents).2 =
      [ReconOut.workingState "streaming_assistant_message",
       ReconOut.workingState "idle"] ∧
    countComplete (reconRun reconInit idleOnlyEvents).2 = 0 ∧
    (reconRun reconInit (idleOnlyEvents ++ [ReconEvent.timerFire])).2 =
      [ReconOut.workingState "streaming_assistant_message",
       ReconOut.workingState "idle",
       ReconOut.complete] ∧
    countComplete (reconRun reconInit (idleOnlyEvents ++ [ReconEvent.timerFire])).2 = 1 := by
  refine ⟨rfl, rfl, rfl, rfl, rfl, rfl⟩

theorem historyFor_append (id : String) (h : List (String × ToolStatus))
    (j : String) (st : ToolStatus) :
    historyFor id (h ++ [(j, st)]) =
      historyFor id h ++ (if j = id then [st] else []) := by
  induction h with
  | nil => simp [historyFor]
  | cons e rest ih =>
    by_cases he : e.1 = id
    · simp [historyFor, he, ih]
    · simp [historyFor, he, ih]

theorem monoRel_pending (b : ToolStatus) : monoRel ToolStatus.pending b :=
  ⟨Nat.zero_le _, by simp [isTerminalStatus]⟩

theorem monoRel_refl (a : ToolStatus) : monoRel a a :=
  ⟨Nat.le_refl _, fun _ => rfl⟩

theorem monoRel_to_completed (a : ToolStatus) (ha : a ≠ ToolStatus.failed) :
    monoRel a ToolStatus.completed := by
  cases a <;> simp_all [monoRel, statusRank, isTerminalStatus]

theorem invH_update (hist : List (String × ToolStatus)) (lookup : String → Option ToolStatus)
    (id : String) (st : ToolStatus) (h : InvH hist lookup)
    (hok : ∀ a, lookup id = some a → monoRel a st) :
    InvH (hist ++ [(id, st)]) (fun x => if x = id then some st else lookup x) := by
  obtain ⟨h1, h2⟩ := h
  constructor
  · intro id'
    rw [historyFor_append]
    by_cases hid : id = id'
    · rw [if_pos hid]
      subst hid
      rw [List.chain'_append]
      refine ⟨h1 id, List.chain'_singleton st, ?_⟩
      intro x hx y hy
      simp only [List.head?_cons, Option.mem_def, Option.some.injEq] at hy
      subst hy
      apply hok
      rw [← h2 id]
      exact hx
    · rw [if_neg hid]
      simp only [List.append_nil]
      exact h1 id'
  · intro id'
    rw [historyFor_append]
    by_cases hid : id = id'
    · rw [if_pos hid]
      subst hid
      rw [List.getLast?_concat]
      simp
    · rw [if_neg hid]
      simp only [List.append_nil]
      rw [h2 id']
      show lookup id' = if id' = id then some st else lookup id'
      rw [if_neg (fun hxy : id' = id => hid hxy.symm)]

theorem addActive_toolCallStatus (s : Session) (id : String) :
    (addActive s id).toolCallStatus = s.toolCallStatus := by
  unfold addActive
  split <;> rfl

theorem addActive_statusHistory (s : Session) (id : String) :
    (addActive s id).statusHistory = s.statusHistory := by
  unfold addActive
  split <;> rfl

theorem mem_addActive (s : Session) (id x : String) :
    x ∈ (addActive s id).activeToolCallIds ↔ x ∈ s.activeToolCallIds ∨ x = id := by
  unfold addActive
  split
  · case isTrue hmem =>
    constructor
    · exact fun hx => Or.inl hx
    · rintro (hx | rfl)
      · exact hx
      · exact hmem
  · simp

theorem mem_removeActive (s : Session) (id x : String) :
    x ∈ (removeActive s id).activeToolCallIds ↔ x ∈ s.activeToolCallIds ∧ x ≠ id := by
  unfold removeActive
  simp [List.mem_filter]

/-- Completing an identifier and deactivating it preserves the session
invariant (the pattern of tool results, cancel paths and declines). -/
theorem sessInv_write_terminal (s : Session) (id : String) (st : ToolStatus)
    (hterm : isTerminalStatus st = true) (h : SessInv s)
    (hok : ∀ a, s.toolCallStatus id = some a → monoRel a st) :
    SessInv (removeActive (setStatus s id st) id) := by
  obtain ⟨hH, hA1, hA2⟩ := h
  refine ⟨invH_update _ _ _ _ hH hok, ?_, ?_⟩
  · intro x hx
    rw [mem_removeActive] at hx
    obtain ⟨hx, hne⟩ := hx
    show (if x = id then some st else s.toolCallStatus x) = _ ∨
      (if x = id then some st else s.toolCallStatus x) = _
    rw [if_neg hne]
    exact hA1 x hx
  · intro id' a ha hna
    rw [mem_removeActive]
    by_cases hid : id' = id
    · subst hid
      have : (if id' = id' then some st else s.toolCallStatus id') = some a := ha
      rw [if_pos rfl] at this
      cases this
      rw [hterm] at hna
      cases hna
    · have : (if id' = id then some st else s.toolCallStatus id') = some a := ha
      rw [if_neg hid] at this
      exact ⟨hA2 id' a this hna, hid⟩

/-- Writing a non-terminal status to an already-active identifier
preserves the invariant (the in_progress promotion paths). -/
theorem sessInv_write_active (s : Session) (id : String) (st : ToolStatus)
    (hst : st = ToolStatus.pending ∨ st = ToolStatus.inProgress) (h : SessInv s)
    (hok : ∀ a, s.toolCallStatus id = some a → monoRel a st)
    (hmem : id ∈ s.activeToolCallIds) :
    SessInv (setStatus s id st) := by
  obtain ⟨hH, hA1, hA2⟩ := h
  refine ⟨invH_update _ _ _ _ hH hok, ?_, ?_⟩
  · intro x hx
    show (if x = id then some st else s.toolCallStatus x) = _ ∨
      (if x = id then some st else s.toolCallStatus x) = _
    by_cases hxe : x = id
    · rw [if_pos hxe]
      rcases hst with rfl | rfl
      · exact Or.inl rfl
      · exact Or.inr rfl
    · rw [if_neg hxe]
      exact hA1 x hx
  · intro id' a ha hna
    by_cases hid : id' = id
    · subst hid
      exact hmem
    · have : (if id' = id then some st else s.toolCallStatus id') = some a := ha
      rw [if_neg hid] at this
      exact hA2 id' a this hna

/-- Creating a fresh tool call (add to the active set, record its name,
give it a non-terminal initial status) preserves the invariant. -/
theorem sessInv_create (s : Session) (id name : String) (st : ToolStatus)
    (hst : st = ToolStatus.pending ∨ st = ToolStatus.inProgress) (h : SessInv s)
    (hnone : s.toolCallStatus id = none) :
    SessInv (setStatus (setToolName (addActive s id) id name) id st) := by
  obtain ⟨hH, hA1, hA2⟩ := h
  have hstat : (setToolName (addActive s id) id name).toolCallStatus = s.toolCallStatus := by
    show (addActive s id).toolCallStatus = s.toolCallStatus
    exact addActive_toolCallStatus s id
  have hhist : (setToolName (addActive s id) id name).statusHistory = s.statusHistory := by
    show (addActive s id).statusHistory = s.statusHistory
    exact addActive_statusHistory s id
  have hactiv : (setToolName (addActive s id) id name).activeToolCallIds =
      (addActive s id).activeToolCallIds := rfl
  have hsetStat : (setStatus (setToolName (addActive s id) id name) id st).toolCallStatus =
      fun x => if x = id then some st else s.toolCallStatus x := by
    funext x
    show (if x = id then some st else (setToolName (addActive s id) id name).toolCallStatus x) = _
    rw [hstat]
  have hsetHist : (setStatus (setToolName (addActive s id) id name) id st).statusHistory =
      s.statusHistory ++ [(id, st)] := by
    show (setToolName (addActive s id) id name).statusHistory ++ [(id, st)] = _
    rw [hhist]
  constructor
  · rw [hsetHist, hsetStat]
    exact invH_update s.statusHistory s.toolCallStatus id st hH
      (fun a ha => absurd (hnone ▸ ha) (by simp))
  · constructor
    · intro x hx
      show (if x = id then some st else
        (setToolName (addActive s id) id name).toolCallStatus x) = _ ∨
        (if x = id then some st else
        (setToolName (addActive s id) id name).toolCallStatus x) = _
      by_cases hxe : x = id
      · rw [if_pos hxe]
        rcases hst with rfl | rfl
        · exact Or.inl rfl
        · exact Or.inr rfl
      · rw [if_neg hxe, hstat]
        rw [show (setStatus (setToolName (addActive s id) id name) id st).activeToolCallIds =
          (addActive s id).activeToolCallIds from rfl] at hx
        rw [mem_addActive] at hx
        rcases hx with hx | hx
        · exact hA1 x hx
        · exact absurd hx hxe
    · intro id' a ha hna
      show id' ∈ (addActive s id).activeToolCallIds
      rw [mem_addActive]
      by_cases hid : id' = id
      · exact Or.inr hid
      · have : (if id' = id then some st else
            (setToolName (addActive s id) id name).toolCallStatus id') = some a := ha
        rw [if_neg hid, hstat] at this
        exact Or.inl (hA2 id' a this hna)

/-- Variant of `sessInv_write_terminal` where the pre-state may have just
had `id` added to the active set (tool-result handling re-adds an
untracked id before finalizing it). -/
theorem sessInv_write_terminal_super (s s1 : Session) (id : String) (st : ToolStatus)
    (hterm : isTerminalStatus st = true) (h : SessInv s)
    (heqL : s1.toolCallStatus = s.toolCallStatus)
    (heqH : s1.statusHistory = s.statusHistory)
    (hmem : ∀ x, x ∈ s1.activeToolCallIds ↔ x ∈ s.activeToolCallIds ∨ x = id)
    (hok : ∀ a, s.toolCallStatus id = some a → monoRel a st) :
    SessInv (removeActive (setStatus s1 id st) id) := by
  obtain ⟨hH, hA1, hA2⟩ := h
  have hsetHist : (setStatus s1 id st).statusHistory = s.statusHistory ++ [(id, st)] := by
    show s1.statusHistory ++ [(id, st)] = _
    rw [heqH]
  have hsetStat : (setStatus s1 id st).toolCallStatus =
      fun x => if x = id then some st else s.toolCallStatus x := by
    funext x
    show (if x = id then some st else s1.toolCallStatus x) = _
    rw [heqL]
  refine ⟨?_, ?_, ?_⟩
  · show InvH (removeActive (setStatus s1 id st) id).statusHistory
      (removeActive (setStatus s1 id st) id).toolCallStatus
    rw [show (removeActive (setStatus s1 id st) id).statusHistory =
        (setStatus s1 id st).statusHistory from rfl,
      show (removeActive (setStatus s1 id st) id).toolCallStatus =
        (setStatus s1 id st).toolCallStatus from rfl, hsetHist, hsetStat]
    exact invH_update _ _ _ _ hH hok
  · intro x hx
    rw [mem_removeActive] at hx
    obtain ⟨hx, hne⟩ := hx
    rw [show (setStatus s1 id st).activeToolCallIds = s1.activeToolCallIds from rfl,
      hmem] at hx
    have hx' : x ∈ s.activeToolCallIds := by
      rcases hx with hx | hx
      · exact hx
      · exact absurd hx hne
    show (setStatus s1 id st).toolCallStatus x = _ ∨ (setStatus s1 id st).toolCallStatus x = _
    rw [hsetStat]
    show (if x = id then some st else s.toolCallStatus x) = _ ∨
      (if x = id then some st else s.toolCallStatus x) = _
    rw [if_neg hne]
    exact hA1 x hx'
  · intro id' a ha hna
    rw [mem_removeActive]
    have ha' : (if id' = id then some st else s.toolCallStatus id') = some a := by
      have : (setStatus s1 id st).toolCallStatus id' = some a := ha
      rw [hsetStat] at this
      exact this
    by_cases hid : id' = id
    · rw [if_pos hid] at ha'
      cases ha'
      rw [hterm] at hna
      cases hna
    · rw [if_neg hid] at ha'
      refine ⟨?_, hid⟩
      rw [show (setStatus s1 id st).activeToolCallIds = s1.activeToolCallIds from rfl,
        hmem]
      exact Or.inl (hA2 id' a ha' hna)

theorem planChoiceUpdateSigs_fields (s : Session) (tid sig : String) :
    (planChoiceUpdateSigs s tid sig).1.toolCallStatus = s.toolCallStatus ∧
    (planChoiceUpdateSigs s tid sig).1.statusHistory = s.statusHistory ∧
    (planChoiceUpdateSigs s tid sig).1.activeToolCallIds = s.activeToolCallIds := by
  simp only [planChoiceUpdateSigs]
  split <;> split <;> exact ⟨rfl, rfl, rfl⟩

/-- The exit-spec plan-choice sub-dialog preserves the session invariant,
and when it does not consume the request it leaves the tool-call
bookkeeping untouched. -/
theorem planChoice_spec (s : Session) (tid : String) (title : Option String)
    (md : String) (env : PermEnv) (h : SessInv s)
    (hok : ∀ a, s.toolCallStatus tid = some a → monoRel a ToolStatus.completed) :
    SessInv (maybeHandleExitSpecModePlanChoice s tid title md env).1 ∧
    ((maybeHandleExitSpecModePlanChoice s tid title md env).2.2 = none →
      (maybeHandleExitSpecModePlanChoice s tid title md env).1.toolCallStatus =
        s.toolCallStatus ∧
      (maybeHandleExitSpecModePlanChoice s tid title md env).1.statusHistory =
        s.statusHistory ∧
      (maybeHandleExitSpecModePlanChoice s tid title md env).1.activeToolCallIds =
        s.activeToolCallIds) := by
  obtain ⟨f1, f2, f3⟩ := planChoiceUpdateSigs_fields s tid (title.getD "" ++ "\n" ++ md)
  rcases hps : planChoiceUpdateSigs s tid (title.getD "" ++ "\n" ++ md) with ⟨s2, effs1⟩
  rw [hps] at f1 f2 f3
  have e1 : s2.toolCallStatus = s.toolCallStatus := f1
  have e2 : s2.statusHistory = s.statusHistory := f2
  have e3 : s2.activeToolCallIds = s.activeToolCallIds := f3
  have hinv2 : SessInv s2 := by
    constructor
    · show InvH s2.statusHistory s2.toolCallStatus
      rw [e1, e2]
      exact h.1
    · show InvAct s2.toolCallStatus s2.activeToolCallIds
      rw [e1, e3]
      exact h.2
  have hok2 : ∀ a, s2.toolCallStatus tid = some a → monoRel a ToolStatus.completed := by
    rw [e1]
    exact hok
  simp only [maybeHandleExitSpecModePlanChoice, hps]
  split
  · exact ⟨hinv2, fun _ => ⟨f1, f2, f3⟩⟩
  · split
    · exact ⟨hinv2, fun _ => ⟨f1, f2, f3⟩⟩
    · split
      · exact ⟨hinv2, fun _ => ⟨f1, f2, f3⟩⟩
      · refine ⟨?_, fun hcontra => Option.noConfusion hcontra⟩
        exact sessInv_write_terminal _ tid ToolStatus.completed rfl hinv2 hok2

/-- Writing the status dispatched from a human/auto decision (terminal +
deactivate, or in_progress keeping the call active) preserves the
invariant when the call was pending. -/
theorem sessInv_statusDispatch (s1 : Session) (tid : String) (st : ToolStatus)
    (hst : st = ToolStatus.completed ∨ st = ToolStatus.inProgress)
    (h1 : SessInv s1) (hcur1 : s1.toolCallStatus tid = some ToolStatus.pending) :
    SessInv (if st = ToolStatus.completed
      then removeActive (setStatus s1 tid st) tid
      else setStatus s1 tid st) := by
  have hok1 : ∀ a, s1.toolCallStatus tid = some a → monoRel a st := by
    intro a ha
    rw [hcur1] at ha
    injection ha with ha
    subst ha
    exact monoRel_pending st
  have hmem1 : tid ∈ s1.activeToolCallIds := h1.2.2 tid ToolStatus.pending hcur1 rfl
  rcases hst with rfl | rfl
  · rw [if_pos rfl]
    exact sessInv_write_terminal s1 _ _ rfl h1 hok1
  · rw [if_neg (by simp)]
    exact sessInv_write_active s1 _ _ (Or.inr rfl) h1 hok1 hmem1

/-- `decideFinish` preserves the invariant for a pending call. -/
theorem sessInv_decideFinish (s2 : Session) (effs : List Eff) (tid tname sel : String)
    (h : SessInv s2) (hcur : s2.toolCallStatus tid = some ToolStatus.pending) :
    SessInv (decideFinish s2 effs tid tname sel).1 := by
  refine sessInv_statusDispatch s2 tid _ ?_ h hcur
  split
  · exact Or.inl rfl
  · exact Or.inr rfl

theorem computeAutoDecision_exit (m : AcpModeId) (r : RiskLevel) :
    computeAutoDecision "ExitSpecMode" m r = none := rfl

/-- `decideEscalated` preserves the invariant for a pending call. -/
theorem sessInv_decideEscalated (s1 : Session) (effs : List Eff) (tid tname sel : String)
    (h : SessInv s1) (hcur : s1.toolCallStatus tid = some ToolStatus.pending) :
    SessInv (decideEscalated s1 effs tid tname sel).1 := by
  unfold decideEscalated
  split
  · split
    · exact sessInv_decideFinish _ _ _ _ _ h hcur
    · exact sessInv_decideFinish _ _ _ _ _ h hcur
  · exact sessInv_decideFinish _ _ _ _ _ h hcur

/-- `decidePermission` preserves the session invariant whenever the tool
call under decision is currently pending (as `handlePermission`
establishes just before calling it). -/
theorem sessInv_decide (s : Session) (p : PermParams) (env : PermEnv) (h : SessInv s)
    (hcur : s.toolCallStatus p.toolCallId = some ToolStatus.pending) :
    SessInv (decidePermission s p env).1 := by
  have hok : ∀ st a, s.toolCallStatus p.toolCallId = some a → monoRel a st := by
    intro st a ha
    rw [hcur] at ha
    injection ha with ha
    subst ha
    exact monoRel_pending st
  by_cases hc : s.cancelled = true
  · simp only [decidePermission, hc, if_true]
    exact sessInv_write_terminal s _ _ rfl h (hok _)
  · have hc' : s.cancelled = false := by
      cases hcb : s.cancelled
      · rfl
      · exact absurd hcb hc
    cases hplan : p.rawInput.specPlan with
    | none =>
      simp only [decidePermission, hc', Bool.false_eq_true, if_false, hplan]
      cases hauto : computeAutoDecision p.toolName s.mode p.riskLevel with
      | some d =>
        simp only [hauto]
        refine sessInv_statusDispatch s p.toolCallId _ ?_ h hcur
        split
        · exact Or.inl rfl
        · exact Or.inr rfl
      | none =>
        simp only [hauto]
        cases henv : env.escalation with
        | none =>
          exact sessInv_write_terminal s _ _ rfl h (hok _)
        | some outcome =>
          exact sessInv_decideEscalated _ _ _ _ _ h hcur
    | some md =>
      by_cases hexit : p.toolName = "ExitSpecMode"
      · obtain ⟨hinv', hfields⟩ :=
          planChoice_spec s p.toolCallId p.rawInput.specTitle md env h (hok _)
        rcases hmh : maybeHandleExitSpecModePlanChoice s p.toolCallId p.rawInput.specTitle md env
          with ⟨s', e', r⟩
        rw [hmh] at hinv' hfields
        cases r with
        | some early =>
          simp only [decidePermission, hc', Bool.false_eq_true, if_false, hplan, hexit,
            if_true, reduceIte, hmh]
          exact hinv'
        | none =>
          obtain ⟨g1, g2, g3⟩ := hfields rfl
          have hcur' : s'.toolCallStatus p.toolCallId = some ToolStatus.pending := by
            have e : s'.toolCallStatus = s.toolCallStatus := g1
            rw [e]
            exact hcur
          have hok' : ∀ st a, s'.toolCallStatus p.toolCallId = some a → monoRel a st := by
            intro st a ha
            rw [hcur'] at ha
            injection ha with ha
            subst ha
            exact monoRel_pending st
          simp only [decidePermission, hc', Bool.false_eq_true, if_false, hplan, hexit,
            if_true, reduceIte, hmh, computeAutoDecision_exit]
          cases henv : env.escalation with
          | none =>
            exact sessInv_write_terminal s' _ _ rfl hinv' (hok' _)
          | some outcome =>
            exact sessInv_decideEscalated _ _ _ _ _ hinv' hcur'
      · simp only [decidePermission, hc', Bool.false_eq_true, if_false, hplan, hexit,
          if_false]
        cases hauto : computeAutoDecision p.toolName s.mode p.riskLevel with
        | some d =>
          simp only [hauto]
          refine sessInv_statusDispatch s p.toolCallId _ ?_ h hcur
          split
          · exact Or.inl rfl
          · exact Or.inr rfl
        | none =>
          simp only [hauto]
          cases henv : env.escalation with
          | none =>
            exact sessInv_write_terminal s _ _ rfl h (hok _)
          | some outcome =>
            exact sessInv_decideEscalated _ _ _ _ _ h hcur

/-- `handlePermission` preserves the invariant when the requested tool
call is not yet in the status mapping. -/
theorem sessInv_handlePermission (s : Session) (req : PermissionRequestModel) (env : PermEnv)
    (h : SessInv s)
    (hfresh : ∀ tu, req.toolUse = some tu → s.toolCallStatus tu.id = none) :
    SessInv (handlePermission s req env).1 := by
  cases htu : req.toolUse with
  | none =>
    simp only [handlePermission, htu]
    exact h
  | some tu =>
    have hnone := hfresh tu htu
    have hs1 : SessInv (setStatus (setToolName (addActive s tu.id) tu.id tu.name)
        tu.id ToolStatus.pending) :=
      sessInv_create s tu.id tu.name ToolStatus.pending (Or.inl rfl) h hnone
    have hcur1 : (setStatus (setToolName (addActive s tu.id) tu.id tu.name)
        tu.id ToolStatus.pending).toolCallStatus tu.id = some ToolStatus.pending := by
      show (if tu.id = tu.id then some ToolStatus.pending else _) = _

      rw [if_pos rfl]
    have hd := sessInv_decide _
      ⟨tu.id, tu.name, computeRiskLevel tu.name tu.input.riskLevel, tu.input, req.options⟩
      env hs1 hcur1
    simp only [handlePermission, htu]
    rcases hdec : decidePermission
        (setStatus (setToolName (addActive s tu.id) tu.id tu.name) tu.id ToolStatus.pending)
        ⟨tu.id, tu.name, computeRiskLevel tu.name tu.input.riskLevel, tu.input, req.options⟩
        env with ⟨s2, effs, sel⟩
    rw [hdec] at hd
    simp only [hdec]
    exact hd

/-- The tool_use notification branch preserves the invariant
unconditionally. -/
theorem sessInv_toolUseNote (s : Session) (id name : String) (input : RawInput)
    (h : SessInv s) : SessInv (handleToolUseNotification s id name input).1 := by
  simp only [handleToolUseNotification]
  split
  · exact h
  split
  · exact h
  split
  · exact h
  rename_i hterm
  split
  · rename_i hmem
    split
    · rename_i hpr
      obtain ⟨hpr1, hpr2, hpr3⟩ := hpr
      refine sessInv_write_active s id ToolStatus.inProgress (Or.inr rfl) h ?_ hmem
      intro a ha
      cases a with
      | pending => exact absurd ha hpr3
      | inProgress => exact monoRel_refl _
      | completed => exact absurd ha hpr1
      | failed => exact absurd ha hpr2
    · exact h
  · rename_i hmem
    have hnone : s.toolCallStatus id = none := by
      cases hl : s.toolCallStatus id with
      | none => rfl
      | some a =>
        cases a with
        | pending => exact absurd (h.2.2 id _ hl rfl) hmem
        | inProgress => exact absurd (h.2.2 id _ hl rfl) hmem
        | completed => exact absurd (Or.inl hl) hterm
        | failed => exact absurd (Or.inr hl) hterm
    refine sessInv_create s id name _ ?_ h hnone
    split
    · exact Or.inl rfl
    · exact Or.inr rfl

/-- The tool_result notification branch preserves the invariant provided
the identifier is not already finalized. -/
theorem sessInv_toolResultNote (s : Session) (id content : String) (isError : Bool)
    (h : SessInv s)
    (hnt : ∀ st, s.toolCallStatus id = some st → isTerminalStatus st = false) :
    SessInv (handleToolResultNotification s id content isError).1 := by
  have hok : ∀ (st : ToolStatus), isTerminalStatus st = true →
      ∀ a, s.toolCallStatus id = some a → monoRel a st := by
    intro st hstterm a ha
    refine ⟨?_, ?_⟩
    · have h2 : statusRank st = 2 := by
        cases st <;> simp_all [isTerminalStatus, statusRank]
      rw [h2]
      cases a <;> simp [statusRank]
    · intro hterm
      exact absurd (hnt a ha) (by rw [hterm]; simp)
  simp only [handleToolResultNotification]
  split
  · exact h
  · split
    · rename_i hmem
      refine sessInv_write_terminal_super s s id _ ?_ h rfl rfl ?_ (hok _ ?_)
      · split <;> rfl
      · intro x
        constructor
        · exact fun hx => Or.inl hx
        · rintro (hx | rfl)
          · exact hx
          · exact hmem
      · split <;> rfl
    · rename_i hmem
      refine sessInv_write_terminal_super s (addActive s id) id _ ?_ h
        (addActive_toolCallStatus s id) (addActive_statusHistory s id) ?_ (hok _ ?_)
      · split <;> rfl
      · exact fun x => mem_addActive s id x
      · split <;> rfl

/-- The finalize loop preserves the history invariant and empties the
set of non-terminal identifiers. -/
theorem sessInv_finalizeIds (msg : String) (ids : List String) :
    ∀ (s : Session), InvH s.statusHistory s.toolCallStatus →
    (∀ id ∈ ids, ∀ a, s.toolCallStatus id = some a → monoRel a ToolStatus.completed) →
    s.activeToolCallIds = [] →
    (∀ id a, s.toolCallStatus id = some a → isTerminalStatus a = false → id ∈ ids) →
    SessInv (finalizeIds msg s ids).1 := by
  induction ids with
  | nil =>
    intro s hH hIds hAct hTracked
    refine ⟨hH, ?_, ?_⟩
    · intro x hx
      have hx' : x ∈ s.activeToolCallIds := hx
      rw [hAct] at hx'
      cases hx'
    · intro id a ha hna
      have ha' : s.toolCallStatus id = some a := ha
      exact absurd (hTracked id a ha' hna) (List.not_mem_nil id)
  | cons hd tl ih =>
    intro s hH hIds hAct hTracked
    simp only [finalizeIds]
    rcases hf : finalizeIds msg (setStatus s hd ToolStatus.completed) tl with ⟨s2, effs⟩
    have := ih (setStatus s hd ToolStatus.completed)
      (invH_update _ _ _ _ hH (hIds hd (List.mem_cons_self hd tl)))
      (by
        intro id hid a ha
        have ha' : (if id = hd then some ToolStatus.completed else s.toolCallStatus id)
            = some a := ha
        by_cases hidh : id = hd
        · rw [if_pos hidh] at ha'
          cases ha'
          exact monoRel_refl _
        · rw [if_neg hidh] at ha'
          exact hIds id (List.mem_cons_of_mem hd hid) a ha')
      hAct
      (by
        intro id a ha hna
        have ha' : (if id = hd then some ToolStatus.completed else s.toolCallStatus id)
            = some a := ha
        by_cases hidh : id = hd
        · rw [if_pos hidh] at ha'
          cases ha'
          exact absurd hna (by simp [isTerminalStatus])
        · rw [if_neg hidh] at ha'
          have := hTracked id a ha' hna
          rcases List.mem_cons.mp this with hh | hh
          · exact absurd hh hidh
          · exact hh)
    rw [hf] at this
    simp only [hf]
    exact this

/-- `finalizeActiveToolCalls` preserves the invariant. -/
theorem sessInv_finalizeActive (s : Session) (message : String) (h : SessInv s) :
    SessInv (finalizeActiveToolCalls s message).1 := by
  simp only [finalizeActiveToolCalls]
  split
  · exact h
  · refine sessInv_finalizeIds message s.activeToolCallIds { s with activeToolCallIds := [] }
      h.1 ?_ rfl ?_
    · intro id hid a ha
      have ha' : s.toolCallStatus id = some a := ha
      rcases h.2.1 id hid with hp | hp
      · rw [ha'] at hp
        injection hp with hp
        rw [hp]
        exact monoRel_pending _
      · rw [ha'] at hp
        injection hp with hp
        rw [hp]
        exact monoRel_to_completed _ (by simp)
    · intro id a ha hna
      exact h.2.2 id a ha hna

/-- Every restricted operation preserves the session invariant. -/
theorem sessInv_applyOp (s : Session) (op : SessionOp) (h : SessInv s)
    (hok : opOk s op = true) : SessInv (applyOp s op).1 := by
  cases op with
  | toolUseNote id name input => exact sessInv_toolUseNote s id name input h
  | toolResultNote id content isError =>
    refine sessInv_toolResultNote s id content isError h ?_
    intro st hst
    simp only [opOk, hst] at hok
    cases hterm : isTerminalStatus st with
    | false => rfl
    | true =>
      rw [hterm] at hok
      cases hok
  | permission req env =>
    refine sessInv_handlePermission s req env h ?_
    intro tu htu
    simp only [opOk, htu] at hok
    exact Option.isNone_iff_eq_none.mp hok
  | finalizeActive message =>
    exact sessInv_finalizeActive s message h

/-- A restricted run preserves the session invariant. -/
theorem sessInv_runOps (ops : List SessionOp) :
    ∀ (s : Session), SessInv s → opsRestricted s ops = true → SessInv (runOps s ops) := by
  induction ops with
  | nil => exact fun s h _ => h
  | cons op rest ih =>
    intro s h hr
    simp only [opsRestricted, Bool.and_eq_true] at hr
    exact ih (applyOp s op).1 (sessInv_applyOp s op h hr.1) hr.2

theorem chainInv_init : ChainInv chainInit := by
  refine ⟨List.Pairwise.nil, List.Pairwise.nil, ?_, ?_, ?_⟩ <;> simp [chainInit]

theorem chainInv_step (st : ChainState) (e : ChainEvent) (h : ChainInv st) :
    ChainInv (chainStep st e) := by
  obtain ⟨h1, h2, h3, h4, h5⟩ := h
  cases e with
  | arrive n =>
    by_cases hn : n = 0
    · refine ⟨?_, ?_, ?_, ?_, ?_⟩ <;> simp only [chainStep, if_pos hn]
      · exact h1
      · exact h2
      · exact h3
      · exact fun p hp => Nat.lt_succ_of_lt (h4 p hp)
      · exact fun t ht => Nat.lt_succ_of_lt (h5 t ht)
    · refine ⟨?_, ?_, ?_, ?_, ?_⟩ <;> simp only [chainStep, if_neg hn]
      · exact h1
      · rw [List.map_append, List.pairwise_append]
        refine ⟨h2, by simp, ?_⟩
        intro a ha b hb
        simp only [List.map_cons, List.map_nil, List.mem_singleton] at hb
        subst hb
        obtain ⟨t, ht, rfl⟩ := List.mem_map.mp ha
        exact h5 t ht
      · intro p hp t' ht'
        rcases List.mem_append.mp ht' with ht' | ht'
        · exact h3 p hp t' ht'
        · simp only [List.mem_singleton] at ht'
          subst ht'
          exact Or.inl (h4 p hp)
      · exact fun p hp => Nat.lt_succ_of_lt (h4 p hp)
      · intro t ht
        rcases List.mem_append.mp ht with ht | ht
        · exact Nat.lt_succ_of_lt (h5 t ht)
        · simp only [List.mem_singleton] at ht
          subst ht
          exact Nat.lt_succ_self _
  | exec =>
    cases hq : st.queue with
    | nil =>
      simp only [chainStep, hq]
      exact ⟨h1, h2, h3, h4, h5⟩
    | cons t rest =>
      rw [hq] at h2 h3 h5
      simp only [List.map_cons] at h2
      have hHeadLt : ∀ x ∈ rest, t.line < x.line := by
        intro x hx
        exact (List.pairwise_cons.mp h2).1 x.line (List.mem_map.mpr ⟨x, hx, rfl⟩)
      have hRestPw : (rest.map ChainTask.line).Pairwise (· < ·) :=
        (List.pairwise_cons.mp h2).2
      have hpt : ∀ p ∈ st.trace, chainLexLt p (t.line, t.nextSeg) :=
        fun p hp => h3 p hp t (List.mem_cons_self _ _)
      have h1' : (st.trace ++ [(t.line, t.nextSeg)]).Pairwise chainLexLt := by
        rw [List.pairwise_append]
        refine ⟨h1, by simp, ?_⟩
        intro a ha b hb
        simp only [List.mem_singleton] at hb
        subst hb
        exact hpt a ha
      have h4' : ∀ p ∈ st.trace ++ [(t.line, t.nextSeg)], p.1 < st.nextLine := by
        intro p hp
        rcases List.mem_append.mp hp with hp | hp
        · exact h4 p hp
        · simp only [List.mem_singleton] at hp
          subst hp
          exact h5 t (List.mem_cons_self _ _)
      simp only [chainStep, hq]
      by_cases hadv : t.nextSeg + 1 < t.total
      · simp only [if_pos hadv]
        refine ⟨h1', ?_, ?_, h4', ?_⟩
        · simpa using h2
        · intro p hp t' ht'
          rcases List.mem_cons.mp ht' with ht' | ht'
          · subst ht'
            rcases List.mem_append.mp hp with hp | hp
            · rcases hpt p hp with hlt | ⟨heq, hseg⟩
              · exact Or.inl hlt
              · exact Or.inr ⟨heq, Nat.lt_succ_of_lt hseg⟩
            · simp only [List.mem_singleton] at hp
              subst hp
              exact Or.inr ⟨rfl, Nat.lt_succ_self _⟩
          · rcases List.mem_append.mp hp with hp | hp
            · exact h3 p hp t' (List.mem_cons_of_mem _ ht')
            · simp only [List.mem_singleton] at hp
              subst hp
              exact Or.inl (hHeadLt t' ht')
        · intro t' ht'
          rcases List.mem_cons.mp ht' with ht' | ht'
          · subst ht'
            exact h5 t (List.mem_cons_self _ _)
          · exact h5 t' (List.mem_cons_of_mem _ ht')
      · simp only [if_neg hadv]
        refine ⟨h1', hRestPw, ?_, h4', ?_⟩
        · intro p hp t' ht'
          rcases List.mem_append.mp hp with hp | hp
          · exact h3 p hp t' (List.mem_cons_of_mem _ ht')
          · simp only [List.mem_singleton] at hp
            subst hp
            exact Or.inl (hHeadLt t' ht')
        · exact fun t' ht' => h5 t' (List.mem_cons_of_mem _ ht')

theorem chainInv_run (st : ChainState) (es : List ChainEvent) (h : ChainInv st) :
    ChainInv (chainRun st es) := by
  induction es generalizing st with
  | nil => exact h
  | cons e rest ih => exact ih _ (chainInv_step st e h)

/-- C3 (amended): the original claim fails on the code (see the
counterexample); monotonicity does hold under the restriction that no
permission sub-request arrives for an identifier already in the status
mapping and no tool result arrives for an already-finalized identifier.
Under that restriction, for every sequence of operations on a fresh
session, every identifier's recorded status sequence is monotone along
pending → in_progress → (completed | failed) and never changes after
reaching a terminal status. -/
theorem toolcall_status_monotone_restricted :
    ∀ (mode : AcpModeId) (ops : List SessionOp),
      opsRestricted (permInit mode) ops = true →
      ∀ id, List.Chain' monoRel (historyFor id (runOps (permInit mode) ops).statusHistory) := by
  intro mode ops hr id
  have hinit : SessInv (permInit mode) := by
    refine ⟨⟨?_, ?_⟩, ?_, ?_⟩
    · intro id2
      simp [permInit, historyFor]
    · intro id2
      simp [permInit, historyFor]
    · intro x hx
      simp [permInit] at hx
    · intro id2 a ha _
      simp [permInit] at ha
  exact (sessInv_runOps ops (permInit mode) hinit hr).1.1 id

/-- Witness for C3's amended theorem: a concrete restricted run (fresh
permission id, single tool result) with a monotone history. -/
theorem toolcall_status_monotone_restricted_witness :
    opsRestricted (permInit AcpModeId.off) c3RestrictedOps = true ∧
    List.Chain' monoRel
      (historyFor "t2" (runOps (permInit AcpModeId.off) c3RestrictedOps).statusHistory) :=
  ⟨by decide,
   toolcall_status_monotone_restricted AcpModeId.off c3RestrictedOps (by decide) "t2"⟩

/-- C3 counterexample: on the unrestricted operations the claim is false.
A tool_use block creates "t1" as in_progress; the permission sub-request
for the same identifier resets it to pending (handle.ts sets the status to
pending unconditionally, de-duping only the client update); and a second
tool result flips the terminal completed into failed.  The recorded
history is [in_progress, pending, in_progress, completed, failed], which
is not monotone. -/
theorem toolcall_status_monotone_counterexample :
    historyFor "t1" (runOps (permInit AcpModeId.off) c3CounterOps).statusHistory =
      [ToolStatus.inProgress, ToolStatus.pending, ToolStatus.inProgress,
       ToolStatus.completed, ToolStatus.failed] ∧
    ¬ List.Chain' monoRel
        (historyFor "t1" (runOps (permInit AcpModeId.off) c3CounterOps).statusHistory) := by
  constructor
  · rfl
  · intro hchain
    have he : historyFor "t1" (runOps (permInit AcpModeId.off) c3CounterOps).statusHistory =
        [ToolStatus.inProgress, ToolStatus.pending, ToolStatus.inProgress,
         ToolStatus.completed, ToolStatus.failed] := rfl
    rw [he] at hchain
    exact absurd (List.chain'_cons.mp hchain).1.1 (by decide)

theorem permFailMsg_ne (tn : String) :
    ("Permission request failed for " ++ tn ++ ". Cancelling the operation.") ≠ "" := by
  intro hcontra
  have h2 := congrArg String.length hcontra
  simp [String.length_append] at h2
  exact absurd h2.1.1 (by decide)

theorem planChoiceUpdateSigs_effects (s : Session) (tid sig : String) :
    (planChoiceUpdateSigs s tid sig).2 = [Eff.planDetails (tid ++ ":plan_details")] ∨
    (planChoiceUpdateSigs s tid sig).2 = [] := by
  simp only [planChoiceUpdateSigs]
  split <;> split <;> first
    | exact Or.inl rfl
    | exact Or.inr rfl

/-- When the plan-choice sub-dialog does not consume the request, its
effects contain no completed tool_call_update with a message. -/
theorem planChoice_none_decline (s : Session) (tid : String) (title : Option String)
    (md : String) (env : PermEnv) (idq : String)
    (hr : (maybeHandleExitSpecModePlanChoice s tid title md env).2.2 = none) :
    hasDeclineUpdate (maybeHandleExitSpecModePlanChoice s tid title md env).2.1 idq = false := by
  have heff := planChoiceUpdateSigs_effects s tid (title.getD "" ++ "\n" ++ md)
  rcases hps : planChoiceUpdateSigs s tid (title.getD "" ++ "\n" ++ md) with ⟨s2, effs1⟩
  rw [hps] at heff
  have heff' : effs1 = [Eff.planDetails (tid ++ ":plan_details")] ∨ effs1 = [] := heff
  simp only [maybeHandleExitSpecModePlanChoice, hps] at hr ⊢
  rcases heff' with rfl | rfl <;>
  · revert hr
    split
    · intro _
      rfl
    · split
      · intro _
        rfl
      · split
        · intro _
          rfl
        · intro hr
          cases hr

theorem hasDecline_append (a b : List Eff) (idq : String) :
    hasDeclineUpdate (a ++ b) idq = (hasDeclineUpdate a idq || hasDeclineUpdate b idq) := by
  simp [hasDeclineUpdate, List.any_append]

theorem emitPlanUpdate_decline (md : String) (idq : String) :
    hasDeclineUpdate (emitExitSpecModePlanUpdatePure md) idq = false := by
  unfold emitExitSpecModePlanUpdatePure
  split
  · rfl
  · rfl

/-- Behavior of the final bookkeeping on a human rejection ("cancel"):
status completed, "cancel" reported, decline update only for
ExitSpecMode. -/
theorem decideFinish_cancel_spec (s1 : Session) (effs : List Eff) (tid tname : String) :
    (decideFinish s1 effs tid tname "cancel").2.2 = "cancel" ∧
    (decideFinish s1 effs tid tname "cancel").1.toolCallStatus tid =
      some ToolStatus.completed ∧
    hasDeclineUpdate (decideFinish s1 effs tid tname "cancel").2.1 tid =
      (hasDeclineUpdate effs tid || decide (tname = "ExitSpecMode")) := by
  by_cases hexit : tname = "ExitSpecMode"
  · subst hexit
    refine ⟨rfl, ?_, ?_⟩
    · show (if tid = tid then some ToolStatus.completed else s1.toolCallStatus tid) = _
      rw [if_pos rfl]
    · show hasDeclineUpdate
        (effs ++ [Eff.toolCallUpdate tid ToolStatus.completed (some "Staying in Spec mode.")])
        tid = _
      rw [hasDecline_append]
      simp [hasDeclineUpdate]
  · refine ⟨rfl, ?_, ?_⟩
    · show (if tid = tid then some ToolStatus.completed else s1.toolCallStatus tid) = _
      rw [if_pos rfl]
    · simp only [decideFinish]
      rw [if_neg hexit]
      simp [hexit]

/-- Behavior of `decideEscalated` on a human rejection. -/
theorem decideEscalated_cancel_spec (s1 : Session) (effs : List Eff) (tid tname : String) :
    (decideEscalated s1 effs tid tname "cancel").2.2 = "cancel" ∧
    (decideEscalated s1 effs tid tname "cancel").1.toolCallStatus tid =
      some ToolStatus.completed ∧
    hasDeclineUpdate (decideEscalated s1 effs tid tname "cancel").2.1 tid =
      (hasDeclineUpdate effs tid || decide (tname = "ExitSpecMode")) := by
  by_cases hexit : tname = "ExitSpecMode"
  · subst hexit
    refine ⟨rfl, ?_, ?_⟩
    · show (if tid = tid then some ToolStatus.completed else s1.toolCallStatus tid) = _
      rw [if_pos rfl]
    · show hasDeclineUpdate
        ((effs ++ [Eff.currentModeUpdate AcpModeId.spec]) ++
          [Eff.toolCallUpdate tid ToolStatus.completed (some "Staying in Spec mode.")]) tid = _
      rw [hasDecline_append, hasDecline_append]
      simp [hasDeclineUpdate]
  · simp only [decideEscalated]
    rw [if_neg hexit]
    exact decideFinish_cancel_spec s1 effs tid tname

/-- C7 (amended): for every escalated permission request whose escalation
throws or is rejected by the human, the tool call's status is set to
completed (never failed) and the value returned to the subprocess is
"cancel", never an exception.  A decline-message update is emitted exactly
when the escalation itself threw or the tool is ExitSpecMode; for an
ordinary human rejection the status is recorded as completed without an
overwriting client update (the original claim's unconditional "with a
decline message" fails there, see the counterexample). -/
theorem escalation_decline_resolution (s : Session) (p : PermParams) (env : PermEnv)
    (hc : s.cancelled = false)
    (hauto : computeAutoDecision p.toolName s.mode p.riskLevel = none)
    (hplanquiet : ∀ md, p.rawInput.specPlan = some md → p.toolName = "ExitSpecMode" →
      (maybeHandleExitSpecModePlanChoice s p.toolCallId p.rawInput.specTitle md env).2.2 = none)
    (hrej : env.escalation = none ∨ env.escalation = some PermOutcome.notSelected ∨
      env.escalation = some (PermOutcome.selected "cancel")) :
    (decidePermission s p env).2.2 = "cancel" ∧
    (decidePermission s p env).1.toolCallStatus p.toolCallId = some ToolStatus.completed ∧
    hasDeclineUpdate (decidePermission s p env).2.1 p.toolCallId =
      (decide (env.escalation = none) || decide (p.toolName = "ExitSpecMode")) := by
  cases hplan : p.rawInput.specPlan with
  | none =>
    simp only [decidePermission, hc, Bool.false_eq_true, if_false, hplan, hauto]
    rcases hrej with he | he | he <;> simp only [he]
    · refine ⟨trivial, ?_, ?_⟩
      · show (if p.toolCallId = p.toolCallId then some ToolStatus.completed else _) = _
        rw [if_pos rfl]
      · rw [hasDecline_append]
        simp [hasDeclineUpdate, permFailMsg_ne p.toolName]
    · have hspec := decideEscalated_cancel_spec s
        (([] : List Eff) ++ [] ++ [Eff.requestPerm p.toolCallId]) p.toolCallId p.toolName
      refine ⟨hspec.1, hspec.2.1, hspec.2.2.trans ?_⟩
      simp [hasDeclineUpdate]
    · have hspec := decideEscalated_cancel_spec s
        (([] : List Eff) ++ [] ++ [Eff.requestPerm p.toolCallId]) p.toolCallId p.toolName
      refine ⟨hspec.1, hspec.2.1, hspec.2.2.trans ?_⟩
      simp [hasDeclineUpdate]
  | some md =>
    by_cases hexit : p.toolName = "ExitSpecMode"
    · rcases hmh : maybeHandleExitSpecModePlanChoice s p.toolCallId p.rawInput.specTitle md env
        with ⟨s', e', r⟩
      have hqr : r = none := by
        have := hplanquiet md hplan hexit
        rw [hmh] at this
        exact this
      subst hqr
      have hdecl : hasDeclineUpdate e' p.toolCallId = false := by
        have h2 := planChoice_none_decline s p.toolCallId p.rawInput.specTitle md env
          p.toolCallId (by rw [hmh])
        rw [hmh] at h2
        exact h2
      simp only [decidePermission, hc, Bool.false_eq_true, if_false, hplan, hexit,
        reduceIte, hmh, computeAutoDecision_exit]
      rcases hrej with he | he | he <;> simp only [he]
      · refine ⟨trivial, ?_, ?_⟩
        · show (if p.toolCallId = p.toolCallId then some ToolStatus.completed else _) = _
          rw [if_pos rfl]
        · rw [hasDecline_append, hasDecline_append, hasDecline_append, hdecl,
            emitPlanUpdate_decline]
          simp [hasDeclineUpdate]
      · have hspec := decideEscalated_cancel_spec s'
          (e' ++ emitExitSpecModePlanUpdatePure md ++ [Eff.requestPerm p.toolCallId])
          p.toolCallId "ExitSpecMode"
        refine ⟨hspec.1, hspec.2.1, hspec.2.2.trans ?_⟩
        rw [hasDecline_append, hasDecline_append, hdecl, emitPlanUpdate_decline]
        simp [hasDeclineUpdate]
      · have hspec := decideEscalated_cancel_spec s'
          (e' ++ emitExitSpecModePlanUpdatePure md ++ [Eff.requestPerm p.toolCallId])
          p.toolCallId "ExitSpecMode"
        refine ⟨hspec.1, hspec.2.1, hspec.2.2.trans ?_⟩
        rw [hasDecline_append, hasDecline_append, hdecl, emitPlanUpdate_decline]
        simp [hasDeclineUpdate]
    · simp only [decidePermission, hc, Bool.false_eq_true, if_false, hplan, hexit,
        reduceIte, hauto]
      rcases hrej with he | he | he <;> simp only [he]
      · refine ⟨trivial, ?_, ?_⟩
        · show (if p.toolCallId = p.toolCallId then some ToolStatus.completed else _) = _
          rw [if_pos rfl]
        · rw [hasDecline_append]
          simp [hasDeclineUpdate, permFailMsg_ne p.toolName]
      · have hspec := decideEscalated_cancel_spec s
          (([] : List Eff) ++ [] ++ [Eff.requestPerm p.toolCallId]) p.toolCallId p.toolName
        refine ⟨hspec.1, hspec.2.1, hspec.2.2.trans ?_⟩
        simp [hasDeclineUpdate, hexit]
      · have hspec := decideEscalated_cancel_spec s
          (([] : List Eff) ++ [] ++ [Eff.requestPerm p.toolCallId]) p.toolCallId p.toolName
        refine ⟨hspec.1, hspec.2.1, hspec.2.2.trans ?_⟩
        simp [hasDeclineUpdate, hexit]

/-- Witness for C7's amended theorem: escalation failure for an ordinary
tool in off mode yields "cancel", a completed status, and a decline
update. -/
theorem escalation_decline_resolution_witness :
    computeAutoDecision c7Params.toolName (permInit AcpModeId.off).mode c7Params.riskLevel
      = none ∧
    ((decidePermission (permInit AcpModeId.off) c7Params c7EnvThrow).2.2 = "cancel" ∧
     (decidePermission (permInit AcpModeId.off) c7Params c7EnvThrow).1.toolCallStatus "t1" =
       some ToolStatus.completed ∧
     hasDeclineUpdate (decidePermission (permInit AcpModeId.off) c7Params c7EnvThrow).2.1 "t1"
       = (decide (c7EnvThrow.escalation = none) ||
          decide (c7Params.toolName = "ExitSpecMode"))) :=
  ⟨rfl, escalation_decline_resolution (permInit AcpModeId.off) c7Params c7EnvThrow rfl rfl
    (fun _ hmd => nomatch hmd) (Or.inl rfl)⟩

/-- C7 counterexample: a human rejection of an ordinary tool's escalated
request resolves as "cancel" with status completed, but no
decline-message update is emitted — decide.ts deliberately skips the
closing update when a non-ExitSpecMode selection is "cancel", so the
claim's unconditional "with a decline message" is false. -/
theorem escalation_decline_message_counterexample :
    (handlePermission (permInit AcpModeId.off) c7Req c7EnvRejected).2.2 = "cancel" ∧
    (handlePermission (permInit AcpModeId.off) c7Req c7EnvRejected).1.toolCallStatus "t1" =
      some ToolStatus.completed ∧
    hasDeclineUpdate
      (handlePermission (permInit AcpModeId.off) c7Req c7EnvRejected).2.1 "t1" = false :=
  ⟨rfl, rfl, rfl⟩

/-- C8: for every interleaving of line arrivals and event-loop executions,
the trace of executed handler segments is strictly lexicographically
ordered by (arrival index, segment index): a later-arriving line's handler
never executes any segment before an earlier line's handler has executed
all of its segments, even across suspension points. -/
theorem chain_preserves_arrival_order (es : List ChainEvent) :
    (chainRun chainInit es).trace.Pairwise chainLexLt :=
  (chainInv_run chainInit es chainInv_init).1

/-- After the signature-keyed entry steps, both stored signatures equal the
presented signature. -/
theorem planChoiceUpdateSigs_sigs (s : Session) (tid sig : String) :
    (planChoiceUpdateSigs s tid sig).1.specChoicePromptSignature = some sig ∧
    (planChoiceUpdateSigs s tid sig).1.specPlanDetailsSignature = some sig := by
  simp only [planChoiceUpdateSigs]
  split <;> split <;> simp_all

/-- When both stored signatures already equal the presented one, the entry
steps change nothing and emit nothing. -/
theorem planChoiceUpdateSigs_same (s : Session) (tid sig : String)
    (h1 : s.specChoicePromptSignature = some sig)
    (h2 : s.specPlanDetailsSignature = some sig) :
    planChoiceUpdateSigs s tid sig = (s, []) := by
  simp only [planChoiceUpdateSigs]
  rw [if_neg (not_not_intro h1), if_neg (not_not_intro h2)]

/-- When both stored signatures differ from the presented one, the entry
steps reset the stored choice, record the new signatures, and emit the
plan-details tool call. -/
theorem planChoiceUpdateSigs_changed (s : Session) (tid sig : String)
    (h1 : s.specChoicePromptSignature ≠ some sig)
    (h2 : s.specPlanDetailsSignature ≠ some sig) :
    planChoiceUpdateSigs s tid sig =
      ({ s with specChoicePromptSignature := some sig, specChoice := none,
                specPlanDetailsSignature := some sig,
                specPlanDetailsToolCallId := some (tid ++ ":plan_details") },
       [Eff.planDetails (tid ++ ":plan_details")]) := by
  simp only [planChoiceUpdateSigs]
  rw [if_pos h1]
  split
  · rfl
  · rename_i hcon
    exact absurd (not_not.mp hcon) h2

/-- Post-state of one exit-spec plan-choice call: both stored signatures
equal the presented signature, and the stored choice can only be empty
when the plan exposes no extractable options. -/
theorem planChoice_post (s : Session) (tid : String) (title : Option String)
    (md : String) (env : PermEnv) :
    (maybeHandleExitSpecModePlanChoice s tid title md env).1.specChoicePromptSignature =
      some (title.getD "" ++ "\n" ++ md) ∧
    (maybeHandleExitSpecModePlanChoice s tid title md env).1.specPlanDetailsSignature =
      some (title.getD "" ++ "\n" ++ md) ∧
    ((maybeHandleExitSpecModePlanChoice s tid title md env).1.specChoice = none →
      extractPlanChoices md = []) := by
  obtain ⟨g1, g2⟩ := planChoiceUpdateSigs_sigs s tid (title.getD "" ++ "\n" ++ md)
  rcases hps : planChoiceUpdateSigs s tid (title.getD "" ++ "\n" ++ md) with ⟨s2, effs1⟩
  rw [hps] at g1 g2
  have e1 : s2.specChoicePromptSignature = some (title.getD "" ++ "\n" ++ md) := g1
  have e2 : s2.specPlanDetailsSignature = some (title.getD "" ++ "\n" ++ md) := g2
  simp only [maybeHandleExitSpecModePlanChoice, hps]
  split
  · rename_i hne
    exact ⟨e1, e2, fun hc => absurd hc hne⟩
  · split
    · rename_i hemp
      exact ⟨e1, e2, fun _ => List.isEmpty_iff.mp hemp⟩
    · split
      · exact ⟨e1, e2, fun hc => Option.noConfusion hc⟩
      · exact ⟨e1, e2, fun hc => Option.noConfusion hc⟩

/-- A second call with the same signature as the one already stored emits
neither plan details nor the choose-plan dialog. -/
theorem planChoice_second_same (s1 : Session) (tid2 : String) (title1 : Option String)
    (plan1 : String) (env2 : PermEnv)
    (q1 : s1.specChoicePromptSignature = some (title1.getD "" ++ "\n" ++ plan1))
    (q2 : s1.specPlanDetailsSignature = some (title1.getD "" ++ "\n" ++ plan1))
    (q3 : s1.specChoice = none → extractPlanChoices plan1 = []) :
    planDetailsCount (maybeHandleExitSpecModePlanChoice s1 tid2 title1 plan1 env2).2.1 = 0 ∧
    planDialogCount (maybeHandleExitSpecModePlanChoice s1 tid2 title1 plan1 env2).2.1 = 0 := by
  have hps : planChoiceUpdateSigs s1 tid2 (title1.getD "" ++ "\n" ++ plan1) = (s1, []) :=
    planChoiceUpdateSigs_same s1 tid2 _ q1 q2
  simp only [maybeHandleExitSpecModePlanChoice, hps]
  by_cases hch : s1.specChoice = none
  · rw [if_neg (not_not_intro hch), q3 hch]
    exact ⟨rfl, rfl⟩
  · rw [if_pos hch]
    exact ⟨rfl, rfl⟩

/-- A call whose signature differs from both stored signatures re-emits the
plan details exactly once, re-opens the choose-plan dialog exactly once if
the new plan has extractable options, and otherwise leaves the stored
choice reset to `none`. -/
theorem planChoice_second_changed (s1 : Session) (tid2 : String) (title2 : Option String)
    (plan2 : String) (env2 : PermEnv) (sig1 : String)
    (q1 : s1.specChoicePromptSignature = some sig1)
    (q2 : s1.specPlanDetailsSignature = some sig1)
    (hne : title2.getD "" ++ "\n" ++ plan2 ≠ sig1) :
    planDetailsCount (maybeHandleExitSpecModePlanChoice s1 tid2 title2 plan2 env2).2.1 = 1 ∧
    (extractPlanChoices plan2 ≠ [] →
      planDialogCount (maybeHandleExitSpecModePlanChoice s1 tid2 title2 plan2 env2).2.1 = 1) ∧
    (extractPlanChoices plan2 = [] →
      (maybeHandleExitSpecModePlanChoice s1 tid2 title2 plan2 env2).1.specChoice = none) := by
  have h1 : s1.specChoicePromptSignature ≠ some (title2.getD "" ++ "\n" ++ plan2) := by
    rw [q1]
    intro hc
    exact hne (Option.some.inj hc).symm
  have h2 : s1.specPlanDetailsSignature ≠ some (title2.getD "" ++ "\n" ++ plan2) := by
    rw [q2]
    intro hc
    exact hne (Option.some.inj hc).symm
  have hps := planChoiceUpdateSigs_changed s1 tid2 (title2.getD "" ++ "\n" ++ plan2) h1 h2
  simp only [maybeHandleExitSpecModePlanChoice, hps]
  rw [if_neg (not_not_intro rfl)]
  rcases hpc : extractPlanChoices plan2 with _ | ⟨c, cs⟩
  · exact ⟨rfl, fun hcc => absurd rfl hcc, fun _ => rfl⟩
  · rw [if_neg (show ¬((c :: cs).isEmpty = true) by simp)]
    refine ⟨?_, fun _ => ?_, fun hcc => List.noConfusion hcc⟩
    · split <;> rfl
    · split <;> rfl

/-- C9 (amended): the exit-spec plan sub-dialog is signature-keyed. A second
request with the same signature (title + plan text) as the previous one
emits neither the plan-details tool call nor the choose-plan dialog; a
request with a changed signature re-emits the plan details exactly once,
re-opens the choose-plan dialog exactly once provided the new plan has
extractable options, and otherwise only resets the stored choice (the
strict claim's unconditional re-opening of the dialog does not hold for
optionless plans). -/
theorem plan_choice_signature_idempotence
    (s0 : Session) (tid1 tid2 : String) (title1 title2 : Option String)
    (plan1 plan2 : String) (env1 env2 : PermEnv) :
    (planDetailsCount (maybeHandleExitSpecModePlanChoice
        (maybeHandleExitSpecModePlanChoice s0 tid1 title1 plan1 env1).1
        tid2 title1 plan1 env2).2.1 = 0 ∧
     planDialogCount (maybeHandleExitSpecModePlanChoice
        (maybeHandleExitSpecModePlanChoice s0 tid1 title1 plan1 env1).1
        tid2 title1 plan1 env2).2.1 = 0) ∧
    (title2.getD "" ++ "\n" ++ plan2 ≠ title1.getD "" ++ "\n" ++ plan1 →
      planDetailsCount (maybeHandleExitSpecModePlanChoice
        (maybeHandleExitSpecModePlanChoice s0 tid1 title1 plan1 env1).1
        tid2 title2 plan2 env2).2.1 = 1 ∧
      (extractPlanChoices plan2 ≠ [] →
        planDialogCount (maybeHandleExitSpecModePlanChoice
          (maybeHandleExitSpecModePlanChoice s0 tid1 title1 plan1 env1).1
          tid2 title2 plan2 env2).2.1 = 1) ∧
      (extractPlanChoices plan2 = [] →
        (maybeHandleExitSpecModePlanChoice
          (maybeHandleExitSpecModePlanChoice s0 tid1 title1 plan1 env1).1
          tid2 title2 plan2 env2).1.specChoice = none)) := by
  obtain ⟨p1, p2, p3⟩ := planChoice_post s0 tid1 title1 plan1 env1
  exact ⟨planChoice_second_same _ tid2 title1 plan1 env2 p1 p2 p3,
    fun hne => planChoice_second_changed _ tid2 title2 plan2 env2 _ p1 p2 hne⟩

/-- Witness for C9's amended theorem at concrete plans: the changed
signature of a second plan with options re-emits the details and re-opens
the dialog exactly once each. -/
theorem plan_choice_signature_idempotence_witness :
    ((Option.getD none "" ++ "\n" ++ c9Plan3) ≠ (Option.getD none "" ++ "\n" ++ c9Plan1) ∧
     extractPlanChoices c9Plan3 ≠ []) ∧
    (planDetailsCount (maybeHandleExitSpecModePlanChoice
        (maybeHandleExitSpecModePlanChoice (permInit AcpModeId.spec) "tc" none c9Plan1
          c9Env1).1 "tc2" none c9Plan3 c9Env1).2.1 = 1 ∧
     planDialogCount (maybeHandleExitSpecModePlanChoice
        (maybeHandleExitSpecModePlanChoice (permInit AcpModeId.spec) "tc" none c9Plan1
          c9Env1).1 "tc2" none c9Plan3 c9Env1).2.1 = 1) := by
  have h := plan_choice_signature_idempotence (permInit AcpModeId.spec) "tc" "tc2"
    none none c9Plan1 c9Plan3 c9Env1 c9Env1
  have hne : (Option.getD none "" ++ "\n" ++ c9Plan3) ≠
      (Option.getD none "" ++ "\n" ++ c9Plan1) := by decide
  have hch : extractPlanChoices c9Plan3 ≠ [] := by decide
  exact ⟨⟨hne, hch⟩, (h.2 hne).1, (h.2 hne).2.1 hch⟩

/-- C9 counterexample to the strict claim: a changed signature re-emits the
plan details but does not re-open the multiple-choice dialog when the new
plan has no extractable options, so the claim's unconditional "re-opens
them" is false. -/
theorem plan_choice_reopen_counterexample :
    (Option.getD none "" ++ "\n" ++ c9Plan2) ≠ (Option.getD none "" ++ "\n" ++ c9Plan1) ∧
    planDetailsCount
      (maybeHandleExitSpecModePlanChoice c9State1 "tc2" none c9Plan2 c9Env1).2.1 = 1 ∧
    planDialogCount
      (maybeHandleExitSpecModePlanChoice c9State1 "tc2" none c9Plan2 c9Env1).2.1 = 0 :=
  ⟨by decide, rfl, rfl⟩

/-- C10: every permission request with no decision path — no handler
registered on the transport, owning session missing from the registry,
session's live subprocess reference stale relative to the adapter the
request arrived on, or no tool use in the request — is answered with the
auto-approval "proceed_once", regardless of mode and risk. -/
theorem permission_no_decision_path_proceed_once (handlerRegistered : Bool)
    (sessions : String → Option Session) (sid : String) (adapterGen : Nat)
    (req : PermissionRequestModel) (env : PermEnv)
    (hnopath : handlerRegistered = false ∨ sessions sid = none ∨
      (∀ cur, sessions sid = some cur → cur.droidGen ≠ adapterGen) ∨
      req.toolUse = none) :
    respondToPermissionRequest handlerRegistered sessions sid adapterGen req env =
      "proceed_once" := by
  unfold respondToPermissionRequest
  rcases hnopath with h | h | h | h
  · rw [if_pos h]
  · by_cases hreg : handlerRegistered = false
    · rw [if_pos hreg]
    · rw [if_neg hreg, h]
  · by_cases hreg : handlerRegistered = false
    · rw [if_pos hreg]
    · rw [if_neg hreg]
      cases hs : sessions sid with
      | none => rfl
      | some cur =>
        show (if cur.droidGen ≠ adapterGen then "proceed_once"
              else (handlePermission cur req env).2.2) = "proceed_once"
        rw [if_pos (h cur hs)]
  · by_cases hreg : handlerRegistered = false
    · rw [if_pos hreg]
    · rw [if_neg hreg]
      cases hs : sessions sid with
      | none => rfl
      | some cur =>
        show (if cur.droidGen ≠ adapterGen then "proceed_once"
              else (handlePermission cur req env).2.2) = "proceed_once"
        by_cases hgen : cur.droidGen ≠ adapterGen
        · rw [if_pos hgen]
        · rw [if_neg hgen]
          simp only [handlePermission, h]

/-- C4: a `prompt` call for a session that already has an outstanding
turn-completion continuation is rejected before any side effect: the
registry is returned untouched, no effect is emitted, and the error is the
prompt-in-progress rejection. -/
theorem prompt_second_rejected_without_side_effects (w : World) (sid text : String)
    (env : RestartEnv) (s : Session) (hs : w.sessions sid = some s)
    (hp : s.promptResolve = true) :
    promptOp w sid text env = (w, [], PromptResult.errPromptInProgress) := by
  simp only [promptOp, hs]
  rw [if_pos hp]

/-- Witness for C4: a concrete registry with an outstanding continuation,
rejected with the world unchanged. -/
theorem prompt_second_rejected_without_side_effects_witness :
    (c4World.sessions "sess" = some c4Session ∧ c4Session.promptResolve = true) ∧
    promptOp c4World "sess" "hello" c5Env =
      (c4World, [], PromptResult.errPromptInProgress) :=
  ⟨⟨rfl, rfl⟩, prompt_second_rejected_without_side_effects c4World "sess" "hello"
    c5Env c4Session rfl rfl⟩

/-- The effects of `finalizeIds`: one completed tool_call_update with the
message per id, in order. -/
theorem finalizeIds_effects (msg : String) (ids : List String) (s : Session) :
    (finalizeIds msg s ids).2 =
      ids.map (fun id => Eff.toolCallUpdate id ToolStatus.completed (some msg)) := by
  induction ids generalizing s with
  | nil => rfl
  | cons id rest ih =>
    simp only [finalizeIds]
    rcases hr : finalizeIds msg (setStatus s id ToolStatus.completed) rest with ⟨s2, effs⟩
    have h := ih (setStatus s id ToolStatus.completed)
    rw [hr] at h
    have h2 : effs =
        rest.map (fun id => Eff.toolCallUpdate id ToolStatus.completed (some msg)) := h
    simp only [hr, List.map]
    rw [h2]

/-- `finalizeIds` only writes statuses: all other session fields are
unchanged. -/
theorem finalizeIds_frame (msg : String) (ids : List String) (s : Session) :
    (finalizeIds msg s ids).1.promptResolve = s.promptResolve ∧
    (finalizeIds msg s ids).1.capture = s.capture ∧
    (finalizeIds msg s ids).1.restartPending = s.restartPending ∧
    (finalizeIds msg s ids).1.droidGen = s.droidGen ∧
    (finalizeIds msg s ids).1.droidSessionId = s.droidSessionId ∧
    (finalizeIds msg s ids).1.mode = s.mode ∧
    (finalizeIds msg s ids).1.model = s.model ∧
    (finalizeIds msg s ids).1.activeToolCallIds = s.activeToolCallIds ∧
    (finalizeIds msg s ids).1.cancelled = s.cancelled ∧
    (finalizeIds msg s ids).1.droidRunning = s.droidRunning := by
  induction ids generalizing s with
  | nil => exact ⟨rfl, rfl, rfl, rfl, rfl, rfl, rfl, rfl, rfl, rfl⟩
  | cons id rest ih =>
    simp only [finalizeIds]
    rcases hr : finalizeIds msg (setStatus s id ToolStatus.completed) rest with ⟨s2, effs⟩
    have h := ih (setStatus s id ToolStatus.completed)
    rw [hr] at h
    simp only [hr]
    exact h

/-- The effects of `finalizeActiveToolCalls`: one completed update per
previously active id. -/
theorem finalizeActive_effects (s : Session) (msg : String) :
    (finalizeActiveToolCalls s msg).2 =
      s.activeToolCallIds.map
        (fun id => Eff.toolCallUpdate id ToolStatus.completed (some msg)) := by
  simp only [finalizeActiveToolCalls]
  split
  · rename_i hemp
    rw [List.isEmpty_iff.mp hemp]
    rfl
  · exact finalizeIds_effects msg s.activeToolCallIds _

/-- `finalizeActiveToolCalls` leaves the active set empty. -/
theorem finalizeActive_active (s : Session) (msg : String) :
    (finalizeActiveToolCalls s msg).1.activeToolCallIds = [] := by
  simp only [finalizeActiveToolCalls]
  split
  · rename_i hemp
    exact List.isEmpty_iff.mp hemp
  · exact (finalizeIds_frame msg s.activeToolCallIds _).2.2.2.2.2.2.2.1

/-- `finalizeActiveToolCalls` only writes statuses and clears the active
set: all other session fields are unchanged. -/
theorem finalizeActive_frame (s : Session) (msg : String) :
    (finalizeActiveToolCalls s msg).1.promptResolve = s.promptResolve ∧
    (finalizeActiveToolCalls s msg).1.capture = s.capture ∧
    (finalizeActiveToolCalls s msg).1.restartPending = s.restartPending ∧
    (finalizeActiveToolCalls s msg).1.droidGen = s.droidGen ∧
    (finalizeActiveToolCalls s msg).1.droidSessionId = s.droidSessionId ∧
    (finalizeActiveToolCalls s msg).1.mode = s.mode ∧
    (finalizeActiveToolCalls s msg).1.model = s.model ∧
    (finalizeActiveToolCalls s msg).1.cancelled = s.cancelled ∧
    (finalizeActiveToolCalls s msg).1.droidRunning = s.droidRunning := by
  simp only [finalizeActiveToolCalls]
  split
  · exact ⟨rfl, rfl, rfl, rfl, rfl, rfl, rfl, rfl, rfl⟩
  · have h := finalizeIds_frame msg s.activeToolCallIds
      { s with activeToolCallIds := [] }
    exact ⟨h.1, h.2.1, h.2.2.1, h.2.2.2.1, h.2.2.2.2.1, h.2.2.2.2.2.1,
      h.2.2.2.2.2.2.1, h.2.2.2.2.2.2.2.2.1, h.2.2.2.2.2.2.2.2.2⟩

/-- Fields of the session object a completed restart leaves in the
registry. -/
theorem restartNewSession_fields (w : World) (sid : String) (s : Session)
    (env : RestartEnv) :
    (restartNewSession w sid s env).id = sid ∧
    (restartNewSession w sid s env).objId = w.nextObjId ∧
    (restartNewSession w sid s env).droidGen = w.nextDroidGen ∧
    (restartNewSession w sid s env).mode = s.mode ∧
    (restartNewSession w sid s env).droidRunning = true ∧
    (restartNewSession w sid s env).promptResolve = false ∧
    (restartNewSession w sid s env).capture = false ∧
    (restartNewSession w sid s env).activeToolCallIds = [] ∧
    (restartNewSession w sid s env).cancelled = false ∧
    (restartNewSession w sid s env).restartPending = false ∧
    (restartNewSession w sid s env).droidSessionId =
      (if (s.droidSessionId != "") && env.resumeSucceeds
       then env.resumedInit else env.freshInit).sessionId :=
  ⟨rfl, rfl, rfl, rfl, rfl, rfl, rfl, rfl, rfl, rfl, rfl⟩

/-- When the old model is still offered by the replacement subprocess, the
restarted session keeps it. -/
theorem restartNewSession_model (w : World) (sid : String) (s : Session)
    (env : RestartEnv)
    (hm : s.model ∈ (if (s.droidSessionId != "") && env.resumeSucceeds
      then env.resumedInit else env.freshInit).availableModels) :
    (restartNewSession w sid s env).model = s.model := by
  simp only [restartNewSession]
  rw [if_pos hm]

/-- After the restart body, the registry maps the same key to the new
session object. -/
theorem restartCore_sessions (w : World) (sid : String) (s : Session)
    (env : RestartEnv) :
    (restartCore w sid s env).1.sessions sid = some (restartNewSession w sid s env) := by
  simp only [restartCore]
  exact if_pos trivial

/-- The effect list of the restart body. -/
theorem restartCore_effects (w : World) (sid : String) (s : Session)
    (env : RestartEnv) :
    (restartCore w sid s env).2 =
      [Eff.droidStopped s.droidGen,
       Eff.droidStarted w.nextDroidGen
         (if (s.droidSessionId != "") && env.resumeSucceeds
          then some s.droidSessionId else none),
       Eff.setModeSent w.nextDroidGen (acpModeToDroidAutonomy s.mode),
       Eff.currentModeUpdate s.mode] ++
      (if s.model ∈ (if (s.droidSessionId != "") && env.resumeSucceeds
          then env.resumedInit else env.freshInit).availableModels
       then [Eff.setModelSent w.nextDroidGen s.model] else []) := rfl

/-- With the session registered and no restart already pending,
`restartDroidSession` runs the restart body. -/
theorem restart_spec (w : World) (sid : String) (env : RestartEnv) (s : Session)
    (hs : w.sessions sid = some s) (hr : s.restartPending = false) :
    restartDroidSession w sid env = restartCore w sid s env := by
  simp only [restartDroidSession, hs, hr]
  rfl

/-- The finalize-and-restart tail of `cancel`: the prefix effects are kept,
every active tool call gets a completed update carrying the message, the
replacement subprocess is started with the mode re-applied (and the model
when still offered), and the registry maps the same key to a fresh ready
session. -/
theorem cancelFinish_spec (w : World) (sid : String) (s3 : Session)
    (effsPre : List Eff) (env : RestartEnv) (hr3 : s3.restartPending = false) :
    (∀ e ∈ effsPre, e ∈ (cancelFinish w sid s3 effsPre env).2) ∧
    (∀ id ∈ s3.activeToolCallIds,
      Eff.toolCallUpdate id ToolStatus.completed (some "Cancelled.")
        ∈ (cancelFinish w sid s3 effsPre env).2) ∧
    Eff.droidStarted w.nextDroidGen
      (if (s3.droidSessionId != "") && env.resumeSucceeds
       then some s3.droidSessionId else none) ∈ (cancelFinish w sid s3 effsPre env).2 ∧
    Eff.setModeSent w.nextDroidGen (acpModeToDroidAutonomy s3.mode)
      ∈ (cancelFinish w sid s3 effsPre env).2 ∧
    Eff.currentModeUpdate s3.mode ∈ (cancelFinish w sid s3 effsPre env).2 ∧
    (s3.model ∈ (if (s3.droidSessionId != "") && env.resumeSucceeds
        then env.resumedInit else env.freshInit).availableModels →
      Eff.setModelSent w.nextDroidGen s3.model ∈ (cancelFinish w sid s3 effsPre env).2) ∧
    ((cancelFinish w sid s3 effsPre env).1.sessions sid).isSome = true ∧
    (∀ ns, (cancelFinish w sid s3 effsPre env).1.sessions sid = some ns →
      ns.id = sid ∧ ns.droidGen = w.nextDroidGen ∧ ns.mode = s3.mode ∧
      ns.droidRunning = true ∧ ns.promptResolve = false ∧
      ns.activeToolCallIds = [] ∧
      (s3.model ∈ (if (s3.droidSessionId != "") && env.resumeSucceeds
          then env.resumedInit else env.freshInit).availableModels →
        ns.model = s3.model)) := by
  rcases hfin : finalizeActiveToolCalls s3 "Cancelled." with ⟨s4, effs3⟩
  obtain ⟨hfp, hfc, hfr, hfg, hfd, hfm, hfmo, hfca, hfru⟩ := finalizeActive_frame s3 "Cancelled."
  have hfe := finalizeActive_effects s3 "Cancelled."
  rw [hfin] at hfp hfc hfr hfg hfd hfm hfmo hfca hfru hfe
  have e3 : effs3 = s3.activeToolCallIds.map
      (fun id => Eff.toolCallUpdate id ToolStatus.completed (some "Cancelled.")) := hfe
  have er : s4.restartPending = false := by
    rw [show s4.restartPending = s3.restartPending from hfr]
    exact hr3
  have eg : s4.droidGen = s3.droidGen := hfg
  have ed : s4.droidSessionId = s3.droidSessionId := hfd
  have em : s4.mode = s3.mode := hfm
  have emo : s4.model = s3.model := hfmo
  have hw1 : ({ w with
      sessions := fun x => if x = sid then some s4 else w.sessions x } : World).sessions sid
      = some s4 := by
    show (if sid = sid then some s4 else w.sessions sid) = some s4
    exact if_pos rfl
  have hre := restart_spec
    { w with sessions := fun x => if x = sid then some s4 else w.sessions x }
    sid env s4 hw1 er
  simp only [cancelFinish, hfin, hre]
  rcases hrc : restartCore
      { w with sessions := fun x => if x = sid then some s4 else w.sessions x }
      sid s4 env with ⟨w2, effs4⟩
  simp only [hrc]
  have hes := restartCore_effects
    { w with sessions := fun x => if x = sid then some s4 else w.sessions x } sid s4 env
  rw [hrc] at hes
  have hes2 : effs4 =
      [Eff.droidStopped s4.droidGen,
       Eff.droidStarted w.nextDroidGen
         (if (s4.droidSessionId != "") && env.resumeSucceeds
          then some s4.droidSessionId else none),
       Eff.setModeSent w.nextDroidGen (acpModeToDroidAutonomy s4.mode),
       Eff.currentModeUpdate s4.mode] ++
      (if s4.model ∈ (if (s4.droidSessionId != "") && env.resumeSucceeds
          then env.resumedInit else env.freshInit).availableModels
       then [Eff.setModelSent w.nextDroidGen s4.model] else []) := hes
  have hsm := restartCore_sessions
    { w with sessions := fun x => if x = sid then some s4 else w.sessions x } sid s4 env
  rw [hrc] at hsm
  have hsm2 : w2.sessions sid = some (restartNewSession
      { w with sessions := fun x => if x = sid then some s4 else w.sessions x }
      sid s4 env) := hsm
  rw [hes2, e3, eg, ed, em, emo]
  refine ⟨?_, ?_, ?_, ?_, ?_, ?_, ?_, ?_⟩
  · intro e he
    exact List.mem_append_left _ (List.mem_append_left _ he)
  · intro id hid
    exact List.mem_append_left _ (List.mem_append_right _ (List.mem_map_of_mem _ hid))
  · exact List.mem_append_right _ (List.mem_append_left _
      (List.mem_cons_of_mem _ (List.mem_cons_self _ _)))
  · exact List.mem_append_right _ (List.mem_append_left _
      (List.mem_cons_of_mem _ (List.mem_cons_of_mem _ (List.mem_cons_self _ _))))
  · exact List.mem_append_right _ (List.mem_append_left _
      (List.mem_cons_of_mem _ (List.mem_cons_of_mem _
        (List.mem_cons_of_mem _ (List.mem_cons_self _ _)))))
  · intro hm
    rw [if_pos hm]
    exact List.mem_append_right _ (List.mem_append_right _ (List.mem_cons_self _ _))
  · rw [hsm2]
    rfl
  · intro ns hns
    rw [hsm2] at hns
    obtain rfl := (Option.some.inj hns).symm
    obtain ⟨f1, f2, f3, f4, f5, f6, f7, f8, f9, f10, f11⟩ := restartNewSession_fields
      { w with sessions := fun x => if x = sid then some s4 else w.sessions x } sid s4 env
    refine ⟨f1, f3, ?_, f5, f6, f8, ?_⟩
    · rw [f4]
      exact em
    · intro hm
      have hm4 : s4.model ∈ (if (s4.droidSessionId != "") && env.resumeSucceeds
          then env.resumedInit else env.freshInit).availableModels := by
        rw [emo, ed]
        exact hm
      rw [restartNewSession_model _ sid s4 env hm4]
      exact emo

/-- `cancel` on a session with an outstanding prompt continuation reaches
the finalize-and-restart tail with the continuation resolved as
"cancelled" (and the capture rejected if one existed). -/
theorem cancelOp_inflight (w : World) (sid : String) (env : RestartEnv) (s : Session)
    (hs : w.sessions sid = some s) (hp : s.promptResolve = true) :
    cancelOp w sid env = cancelFinish w sid
      { s with cancelled := true, promptResolve := false, capture := false }
      ([Eff.promptResolved "cancelled"] ++
        (if s.capture then [Eff.captureRejected] else [])) env := by
  by_cases hc : s.capture = true
  · simp [cancelOp, hs, hp, hc]
  · simp only [Bool.not_eq_true] at hc
    simp [cancelOp, hs, hp, hc]

/-- C5: a `cancel` call for a session with an outstanding prompt yields the
continuation resolved with "cancelled"; every previously active tool call
completed with the non-empty message "Cancelled."; a replacement subprocess
session established (new adapter generation started, resumed when possible);
the previous mode re-applied to the new subprocess and reported to the
editor, and the previous model re-applied when still offered; and the same
registry key mapping to a ready session that keeps the editor-visible
identifier.  A `cancel` with no in-flight work is a no-op. -/
theorem cancel_restart_round_trip (w : World) (sid : String) (env : RestartEnv)
    (s : Session) (hs : w.sessions sid = some s) (hr : s.restartPending = false) :
    (s.promptResolve = true →
      Eff.promptResolved "cancelled" ∈ (cancelOp w sid env).2 ∧
      (∀ id ∈ s.activeToolCallIds,
        Eff.toolCallUpdate id ToolStatus.completed (some "Cancelled.")
          ∈ (cancelOp w sid env).2) ∧
      "Cancelled." ≠ "" ∧
      Eff.droidStarted w.nextDroidGen
        (if (s.droidSessionId != "") && env.resumeSucceeds
         then some s.droidSessionId else none) ∈ (cancelOp w sid env).2 ∧
      Eff.setModeSent w.nextDroidGen (acpModeToDroidAutonomy s.mode)
        ∈ (cancelOp w sid env).2 ∧
      Eff.currentModeUpdate s.mode ∈ (cancelOp w sid env).2 ∧
      (s.model ∈ (if (s.droidSessionId != "") && env.resumeSucceeds
          then env.resumedInit else env.freshInit).availableModels →
        Eff.setModelSent w.nextDroidGen s.model ∈ (cancelOp w sid env).2) ∧
      ((cancelOp w sid env).1.sessions sid).isSome = true ∧
      (∀ ns, (cancelOp w sid env).1.sessions sid = some ns →
        ns.id = sid ∧ ns.droidGen = w.nextDroidGen ∧ ns.mode = s.mode ∧
        ns.droidRunning = true ∧ ns.promptResolve = false ∧
        ns.activeToolCallIds = [] ∧
        (s.model ∈ (if (s.droidSessionId != "") && env.resumeSucceeds
            then env.resumedInit else env.freshInit).availableModels →
          ns.model = s.model))) ∧
    (s.promptResolve = false → s.capture = false → s.activeToolCallIds = [] →
      cancelOp w sid env = (w, [])) := by
  constructor
  · intro hp
    rw [cancelOp_inflight w sid env s hs hp]
    have h := cancelFinish_spec w sid
      { s with cancelled := true, promptResolve := false, capture := false }
      ([Eff.promptResolved "cancelled"] ++
        (if s.capture then [Eff.captureRejected] else []))
      env hr
    exact ⟨h.1 _ (List.mem_append_left _ (List.mem_cons_self _ _)), h.2.1, by decide,
      h.2.2.1, h.2.2.2.1, h.2.2.2.2.1, h.2.2.2.2.2.1, h.2.2.2.2.2.2.1,
      h.2.2.2.2.2.2.2⟩
  · intro hp hc ha
    simp [cancelOp, hs, hp, hc, ha]

/-- Witness for C5 at a concrete in-flight session: the continuation is
resolved with "cancelled" and the active tool call "t1" is completed with
the message. -/
theorem cancel_restart_round_trip_witness :
    (c5World.sessions "sess" = some c5Session ∧ c5Session.restartPending = false ∧
     c5Session.promptResolve = true ∧ "t1" ∈ c5Session.activeToolCallIds) ∧
    (Eff.promptResolved "cancelled" ∈ (cancelOp c5World "sess" c5Env).2 ∧
     Eff.toolCallUpdate "t1" ToolStatus.completed (some "Cancelled.")
       ∈ (cancelOp c5World "sess" c5Env).2) := by
  have h := (cancel_restart_round_trip c5World "sess" c5Env c5Session rfl rfl).1 rfl
  exact ⟨⟨rfl, rfl, rfl, by decide⟩, h.1, h.2.1 "t1" (by decide)⟩

/-- C6 (amended): across a restart the registry key keeps mapping to a
session whose editor-facing identifier is that key, even when resume fails
and the fresh subprocess-session identifier is silently adopted — but the
Session value in the registry is a freshly constructed object (its ghost
object identity is the allocator's next tag), not the old object mutated
in place. -/
theorem session_identity_across_restart (w : World) (sid : String)
    (env : RestartEnv) (s : Session) (hs : w.sessions sid = some s)
    (hr : s.restartPending = false) :
    ((restartDroidSession w sid env).1.sessions sid).isSome = true ∧
    ∀ ns, (restartDroidSession w sid env).1.sessions sid = some ns →
      ns.id = sid ∧ ns.objId = w.nextObjId ∧
      ns.droidSessionId = (if (s.droidSessionId != "") && env.resumeSucceeds
        then env.resumedInit else env.freshInit).sessionId := by
  rw [restart_spec w sid env s hs hr, restartCore_sessions w sid s env]
  obtain ⟨f1, f2, f3, f4, f5, f6, f7, f8, f9, f10, f11⟩ :=
    restartNewSession_fields w sid s env
  refine ⟨rfl, fun ns hns => ?_⟩
  obtain rfl := (Option.some.inj hns).symm
  exact ⟨f1, f2, f11⟩

/-- Witness for C6's amended theorem at the concrete restart scenario with
resume failure. -/
theorem session_identity_across_restart_witness :
    (c6World1.sessions "sess" = some c6Session ∧ c6Session.restartPending = false) ∧
    (((restartDroidSession c6World1 "sess" c6Env).1.sessions "sess").isSome = true ∧
     ∀ ns, (restartDroidSession c6World1 "sess" c6Env).1.sessions "sess" = some ns →
       ns.id = "sess" ∧ ns.objId = c6World1.nextObjId ∧
       ns.droidSessionId =
         (if (c6Session.droidSessionId != "") && c6Env.resumeSucceeds
          then c6Env.resumedInit else c6Env.freshInit).sessionId) :=
  ⟨⟨rfl, rfl⟩,
   session_identity_across_restart c6World1 "sess" c6Env c6Session rfl rfl⟩

/-- C6 counterexample to the strict claim: after one restart, the registry
still maps "sess" to a session with editor-facing identifier "sess" (and
the fresh subprocess id "droid-2" silently adopted), but its ghost object
identity changed from 0 to 1 — `attachSession` constructs and registers a
brand-new Session object, so the old object is replaced, not mutated in
place. -/
theorem session_object_replaced_counterexample :
    (c6World1.sessions "sess").map (fun s => s.objId) = some 0 ∧
    (c6World2.sessions "sess").map (fun s => s.objId) = some 1 ∧
    (0 : Nat) ≠ 1 ∧
    (c6World2.sessions "sess").map (fun s => s.id) = some "sess" ∧
    (c6World2.sessions "sess").map (fun s => s.droidSessionId) = some "droid-2" :=
  ⟨rfl, rfl, by decide, rfl, rfl⟩

/-- Witness for C10 at a concrete no-decision path: the owning session is
missing from an empty registry. -/
theorem permission_no_decision_path_proceed_once_witness :
    ((fun _ => (none : Option Session)) "s1" = (none : Option Session)) ∧
    respondToPermissionRequest true (fun _ => none) "s1" 0 c7Req c7EnvRejected =
      "proceed_once" :=
  ⟨rfl, permission_no_decision_path_proceed_once true (fun _ => none) "s1" 0 c7Req
    c7EnvRejected (Or.inr (Or.inl rfl))⟩

end DroidAcp
